import Mathlib

/-! Verification of prag: Go struct declarations to C++ (`src/go/main.go`).

A shallow embedding of the Go-to-C++ transformer (`GoToCppTransformer`) and of
the visitor-based emitter (`CppCodeEmitter`) of `src/go/main.go`, and of the
type descriptors of the JSON exporter (`goTypeToPragJSON` of
`src/pr-go/main.go`), followed by theorems about them.

Conventions of the embedding:
* Go `string` and `[]byte` values are Lean `String`s, `append` on byte slices is `++`.
* A Go pointer that the program tests against `nil` (`CppType.Template`,
  `CppMethod.ReturnType`, `CppStruct.Constructor`) is an `Option`.
* Methods with a pointer receiver that mutate it take the receiver value and
  return the new one.
* `go/ast` expressions are the inductive type `GoExpr`; node kinds that no
  function of the program distinguishes are collected in `GoExpr.other`.
* The indentation counter of the emitter is an integer without bound; the
  program only reaches the values 0 and 1.
-/

namespace Prag

/-! ## The part of `go/ast` the program inspects -/

mutual
/-- Type expressions of `go/ast` (`ast.Expr`). -/
inductive GoExpr where
  /-- An `*ast.Ident`. -/
  | ident (Name : String)
  /-- An `*ast.StarExpr`, `*X`. -/
  | starExpr (X : GoExpr)
  /-- An `*ast.ArrayType`: a slice `[]Elt` when `Len` is `none`, an array otherwise. -/
  | arrayType (Len : Option GoExpr) (Elt : GoExpr)
  /-- An `*ast.MapType`, `map[Key]Value`. -/
  | mapType (Key Value : GoExpr)
  /-- An `*ast.StructType` with the entries of `Fields.List`. -/
  | structType (Fields : List GoField)
  /-- An `*ast.SelectorExpr`, `X.Sel`. -/
  | selectorExpr (X : GoExpr) (Sel : String)
  /-- Every other expression node (`FuncType`, `InterfaceType`, `ChanType`, ...). -/
  | other (kind : String)
/-- An `*ast.Field`: the declared names (none for an embedded field) and the type. -/
inductive GoField where
  | mk (Names : List String) (Typ : GoExpr)
end

/-- Accessor: `field.Names`, each identifier by its `Name`. -/
def GoField.Names : GoField → List String
  | .mk names _ => names

/-- Accessor: `field.Type` (`Type` is reserved in Lean). -/
def GoField.Typ : GoField → GoExpr
  | .mk _ ty => ty

/-! ## C++ AST node types -/

mutual
/-- The struct `CppType`. -/
inductive CppType where
  | mk (Base : String) (IsPointer IsRef IsConst : Bool) (Template : Option CppTemplate)
/-- The struct `CppTemplate`. -/
inductive CppTemplate where
  | mk (Name : String) (Args : List CppType)
end

/-- Accessor: `node.Base`. -/
def CppType.Base : CppType → String
  | .mk b _ _ _ _ => b

/-- Accessor: `node.IsPointer`. -/
def CppType.IsPointer : CppType → Bool
  | .mk _ p _ _ _ => p

/-- Accessor: `node.IsRef`. -/
def CppType.IsRef : CppType → Bool
  | .mk _ _ r _ _ => r

/-- Accessor: `node.IsConst`. -/
def CppType.IsConst : CppType → Bool
  | .mk _ _ _ c _ => c

/-- Accessor: `node.Template`. -/
def CppType.Template : CppType → Option CppTemplate
  | .mk _ _ _ _ t => t

/-- Accessor: `tmpl.Name`. -/
def CppTemplate.Name : CppTemplate → String
  | .mk n _ => n

/-- Accessor: `tmpl.Args`. -/
def CppTemplate.Args : CppTemplate → List CppType
  | .mk _ a => a

/-- The composite literal `&CppType{Base: b}`: every other member has its zero value. -/
def CppType.ofBase (b : String) : CppType :=
  .mk b false false false none

/-- Expressions `CppExpr`. -/
inductive CppExpr where
  | CppIdent (Name : String)
  | CppMemberAccess (Object : CppExpr) (Member : String)

/-- Statements `CppStmt`. -/
inductive CppStmt where
  | CppReturn (Expr : CppExpr)
  | CppAssign (LHS RHS : CppExpr)

/-- The struct `CppParam`. -/
structure CppParam where
  Name : String
  Typ : CppType

/-- The struct `CppMethod`. -/
structure CppMethod where
  Name : String
  ReturnType : Option CppType
  Params : List CppParam
  IsConst : Bool
  Body : List CppStmt

/-- The struct `CppField`. -/
structure CppField where
  Name : String
  Typ : CppType

/-- The struct `CppStruct`. -/
structure CppStruct where
  Name : String
  Fields : List CppField
  Methods : List CppMethod
  Constructor : Option CppMethod

/-- The struct `CppInclude`. -/
structure CppInclude where
  Path : String
  IsSystem : Bool

/-- The struct `CppTranslationUnit`. -/
structure CppTranslationUnit where
  Includes : List CppInclude
  Structs : List CppStruct

/-! ## Go AST to C++ AST transformer -/

/-- The struct `GoToCppTransformer`. -/
structure GoToCppTransformer where
  unit : CppTranslationUnit

/-- The function `NewGoToCppTransformer`. -/
def NewGoToCppTransformer : GoToCppTransformer :=
  { unit :=
      { Includes :=
          [ { Path := "string", IsSystem := true },
            { Path := "vector", IsSystem := true },
            { Path := "unordered_map", IsSystem := true },
            { Path := "optional", IsSystem := true },
            { Path := "cstdint", IsSystem := true } ]
        Structs := [] } }

/-- The table `typeMap` of `mapBasicType`, as key/value pairs (the keys are distinct). -/
def typeMap : List (String × String) :=
  [ ("int", "int32_t"),
    ("int32", "int32_t"),
    ("int64", "int64_t"),
    ("uint", "uint32_t"),
    ("uint32", "uint32_t"),
    ("uint64", "uint64_t"),
    ("float32", "float"),
    ("float64", "double"),
    ("string", "std::string"),
    ("bool", "bool"),
    ("byte", "uint8_t") ]

/-- The method `mapBasicType`; the receiver `t` is not read. -/
def mapBasicType (_t : GoToCppTransformer) (goType : String) : CppType :=
  match typeMap.lookup goType with
  | some mapped => CppType.ofBase mapped
  | none => CppType.ofBase goType

/-- The method `transformType`. -/
def transformType (t : GoToCppTransformer) : GoExpr → CppType
  | .ident name => mapBasicType t name
  | .starExpr x =>
    let baseType := transformType t x
    .mk "std::optional" false false false (some (.mk "optional" [baseType]))
  | .arrayType _ elt =>
    let elemType := transformType t elt
    .mk "std::vector" false false false (some (.mk "vector" [elemType]))
  | .mapType key value =>
    let keyType := transformType t key
    let valType := transformType t value
    .mk "std::unordered_map" false false false (some (.mk "unordered_map" [keyType, valType]))
  | .structType _ => CppType.ofBase "unknown"
  | .selectorExpr _ _ => CppType.ofBase "unknown"
  | .other _ => CppType.ofBase "unknown"

/-- The getter built in the second loop of `transformStruct` for `field`. -/
def getterOf (field : CppField) : CppMethod :=
  { Name := "get_" ++ field.Name
    ReturnType := some (.mk field.Typ.Base false true true field.Typ.Template)
    Params := []
    IsConst := true
    Body := [.CppReturn (.CppIdent field.Name)] }

/-- The setter built in the second loop of `transformStruct` for `field`. -/
def setterOf (field : CppField) : CppMethod :=
  { Name := "set_" ++ field.Name
    ReturnType := some (CppType.ofBase "void")
    Params := [{ Name := "val", Typ := .mk field.Typ.Base false true true field.Typ.Template }]
    IsConst := false
    Body := [.CppAssign (.CppIdent field.Name) (.CppIdent "val")] }

/-- The first loop of `transformStruct`: for every entry of `goStruct.Fields.List`
and every name of the entry, one `CppField` is appended to `acc`. -/
def transformFields (t : GoToCppTransformer) (acc : List CppField) (fields : List GoField) :
    List CppField :=
  fields.foldl
    (fun acc field =>
      field.Names.foldl
        (fun acc fieldName => acc ++ [{ Name := fieldName, Typ := transformType t field.Typ }])
        acc)
    acc

/-- The second loop of `transformStruct`: for every field the getter and then the
setter are appended to `acc`. -/
def generateAccessors (acc : List CppMethod) (fields : List CppField) : List CppMethod :=
  fields.foldl (fun acc field => (acc ++ [getterOf field]) ++ [setterOf field]) acc

/-- The method `transformStruct`; `goFields` is `goStruct.Fields.List`. -/
def transformStruct (t : GoToCppTransformer) (name : String) (goFields : List GoField) :
    CppStruct :=
  let fields := transformFields t [] goFields
  { Name := name
    Fields := fields
    Constructor := some { Name := name, ReturnType := none, Params := [], IsConst := false, Body := [] }
    Methods := generateAccessors [] fields }

/-! ### Files as `ast.Inspect` walks them

`ParseGoSource` walks the whole file with `ast.Inspect`. Its callback returns
`true` at every node, so the walk reaches every node of the file in depth-first
order, and it reacts to `*ast.TypeSpec` nodes only. The model keeps every node
under which a type specification can stand: declarations, specifications,
statements and the expressions in value position, with function literals and
their bodies. Type expressions (`GoExpr`) are leaves of the walk: array lengths
are taken to hold no function literal. -/

mutual
/-- Declarations (`ast.Decl`). -/
inductive GoDecl where
  /-- An `*ast.GenDecl` with its `Specs`. -/
  | genDecl (Specs : List GoSpec)
  /-- An `*ast.FuncDecl` with the statements of its body. -/
  | funcDecl (Name : String) (Body : List GoStmt)
/-- Specifications (`ast.Spec`). -/
inductive GoSpec where
  /-- An `*ast.TypeSpec`, `Name Type`. -/
  | typeSpec (Name : String) (Typ : GoExpr)
  /-- An `*ast.ImportSpec`. -/
  | importSpec
  /-- An `*ast.ValueSpec` (`var` or `const`) with the expressions of its `Values`. -/
  | valueSpec (Values : List GoValue)
/-- Statements (`ast.Stmt`). -/
inductive GoStmt where
  /-- An `*ast.DeclStmt`. -/
  | declStmt (Decl : GoDecl)
  /-- An `*ast.BlockStmt`. -/
  | blockStmt (List : List GoStmt)
  /-- Every other statement (`ExprStmt`, `AssignStmt`, `IfStmt`, `ForStmt`,
  `ReturnStmt`, ...), by its sub-expressions and sub-statements in the order
  `ast.Walk` visits them. -/
  | otherStmt (children : List GoNode)
/-- Expressions in value position. -/
inductive GoValue where
  /-- An `*ast.FuncLit` with the statements of its body. -/
  | funcLit (Body : List GoStmt)
  /-- Every other expression (`CallExpr`, `CompositeLit`, `BinaryExpr`, an
  identifier, a literal, ...), by its sub-expressions in the order `ast.Walk`
  visits them. -/
  | otherValue (children : List GoValue)
/-- A node below a statement: an expression or a statement. -/
inductive GoNode where
  | value (X : GoValue)
  | stmt (S : GoStmt)
end

/-- An `*ast.File`, by its `Decls`. -/
structure GoFile where
  Decls : List GoDecl

mutual
/-- The walk of `ast.Inspect` at and below a declaration, in depth-first order. -/
def inspectDecl (t : GoToCppTransformer) : GoDecl → GoToCppTransformer
  | .genDecl specs => inspectSpecs t specs
  | .funcDecl _ body => inspectStmts t body
/-- The walk of `ast.Inspect` at and below a specification. At a type
specification with a struct type the callback of `ParseGoSource` appends the
transformed struct; below a value specification the walk goes on through the
values. -/
def inspectSpec (t : GoToCppTransformer) : GoSpec → GoToCppTransformer
  | .typeSpec name (.structType fields) =>
    let cppStruct := transformStruct t name fields
    { t with unit := { t.unit with Structs := t.unit.Structs ++ [cppStruct] } }
  | .typeSpec _ _ => t
  | .importSpec => t
  | .valueSpec values => inspectValues t values
/-- The walk of `ast.Inspect` over the specifications of a general declaration. -/
def inspectSpecs (t : GoToCppTransformer) : List GoSpec → GoToCppTransformer
  | [] => t
  | s :: rest => inspectSpecs (inspectSpec t s) rest
/-- The walk of `ast.Inspect` at and below a statement. -/
def inspectStmt (t : GoToCppTransformer) : GoStmt → GoToCppTransformer
  | .declStmt d => inspectDecl t d
  | .blockStmt l => inspectStmts t l
  | .otherStmt children => inspectNodes t children
/-- The walk of `ast.Inspect` over a statement list. -/
def inspectStmts (t : GoToCppTransformer) : List GoStmt → GoToCppTransformer
  | [] => t
  | s :: rest => inspectStmts (inspectStmt t s) rest
/-- The walk of `ast.Inspect` at and below an expression in value position. -/
def inspectValue (t : GoToCppTransformer) : GoValue → GoToCppTransformer
  | .funcLit body => inspectStmts t body
  | .otherValue children => inspectValues t children
/-- The walk of `ast.Inspect` over a list of expressions. -/
def inspectValues (t : GoToCppTransformer) : List GoValue → GoToCppTransformer
  | [] => t
  | v :: rest => inspectValues (inspectValue t v) rest
/-- The walk of `ast.Inspect` at and below a node under a statement. -/
def inspectNode (t : GoToCppTransformer) : GoNode → GoToCppTransformer
  | .value x => inspectValue t x
  | .stmt s => inspectStmt t s
/-- The walk of `ast.Inspect` over the nodes under a statement. -/
def inspectNodes (t : GoToCppTransformer) : List GoNode → GoToCppTransformer
  | [] => t
  | n :: rest => inspectNodes (inspectNode t n) rest
end

/-- The method `ParseGoSource`. The parser `parser.ParseFile` of the Go standard
library is the parameter `parseFile`; the second component is the returned
error (`none` for `nil`). -/
def ParseGoSource (parseFile : String → Except String GoFile) (t : GoToCppTransformer)
    (src : String) : GoToCppTransformer × Option String :=
  match parseFile src with
  | .error err => (t, some err)
  | .ok f => (f.Decls.foldl inspectDecl t, none)

/-- The method `GetAST`. -/
def GoToCppTransformer.GetAST (t : GoToCppTransformer) : CppTranslationUnit :=
  t.unit

/-! ## C++ AST to code emitter -/

/-- The struct `CppCodeEmitter`. -/
structure CppCodeEmitter where
  output : String
  indent : Int

/-- The method `emit`. -/
def CppCodeEmitter.emit (e : CppCodeEmitter) (data : String) : CppCodeEmitter :=
  { e with output := e.output ++ data }

/-- The method `emitIndent`: one `emit` for each `i` with `0 ≤ i < e.indent`. -/
def CppCodeEmitter.emitIndent (e : CppCodeEmitter) : CppCodeEmitter :=
  (List.range e.indent.toNat).foldl (fun e _ => e.emit "    ") e

mutual
/-- The method `VisitType`. -/
def CppCodeEmitter.VisitType (e : CppCodeEmitter) : CppType → CppCodeEmitter
  | .mk base isPointer isRef isConst template =>
    let e := if isConst then e.emit "const " else e
    let e := match template with
      | some tmpl => ((e.emit base).emit "<").visitTemplateArgs tmpl
      | none => e.emit base
    let e := if isRef then e.emit "&" else e
    if isPointer then e.emit "*" else e
/-- The loop of `VisitType` over `node.Template.Args`, closed by `">"`. -/
def CppCodeEmitter.visitTemplateArgs (e : CppCodeEmitter) : CppTemplate → CppCodeEmitter
  | .mk _ args => (e.visitArgs 0 args).emit ">"
/-- The iterations of the loop of `VisitType` from index `i` on. -/
def CppCodeEmitter.visitArgs (e : CppCodeEmitter) (i : Nat) : List CppType → CppCodeEmitter
  | [] => e
  | arg :: rest =>
    let e := if i > 0 then e.emit ", " else e
    (e.VisitType arg).visitArgs (i + 1) rest
end

/-- The iterations of the parameter loop of `VisitMethod` from index `i` on. -/
def CppCodeEmitter.visitParams (e : CppCodeEmitter) (i : Nat) : List CppParam → CppCodeEmitter
  | [] => e
  | param :: rest =>
    let e := if i > 0 then e.emit ", " else e
    let e := e.VisitType param.Typ
    let e := e.emit " "
    let e := e.emit param.Name
    e.visitParams (i + 1) rest

/-- One iteration of the body loop of `VisitMethod`. -/
def CppCodeEmitter.visitStmt (e : CppCodeEmitter) : CppStmt → CppCodeEmitter
  | .CppReturn expr =>
    let e := e.emit "return "
    let e := match expr with
      | .CppIdent name => e.emit name
      | _ => e
    e.emit ";"
  | .CppAssign lhs rhs =>
    let e := match lhs with
      | .CppIdent name => e.emit name
      | _ => e
    let e := e.emit " = "
    let e := match rhs with
      | .CppIdent name => e.emit name
      | _ => e
    e.emit ";"

/-- The method `VisitMethod`. -/
def CppCodeEmitter.VisitMethod (e : CppCodeEmitter) (node : CppMethod) : CppCodeEmitter :=
  let e := e.emitIndent
  let e := match node.ReturnType with
    | some rt => (e.VisitType rt).emit " "
    | none => e
  let e := e.emit node.Name
  let e := e.emit "("
  let e := e.visitParams 0 node.Params
  let e := e.emit ")"
  let e := if node.IsConst then e.emit " const" else e
  let e := e.emit " \x7b "
  let e := node.Body.foldl CppCodeEmitter.visitStmt e
  e.emit " \x7d\n"

/-- The method `VisitField`. -/
def CppCodeEmitter.VisitField (e : CppCodeEmitter) (node : CppField) : CppCodeEmitter :=
  let e := e.emitIndent
  let e := e.VisitType node.Typ
  let e := e.emit " "
  let e := e.emit node.Name
  e.emit ";\n"

/-- The method `VisitStruct`. -/
def CppCodeEmitter.VisitStruct (e : CppCodeEmitter) (node : CppStruct) : CppCodeEmitter :=
  let e := e.emit "struct "
  let e := e.emit node.Name
  let e := e.emit " \x7b\n"
  let e := { e with indent := e.indent + 1 }
  let e := node.Fields.foldl CppCodeEmitter.VisitField e
  let e := e.emit "\n"
  let e := match node.Constructor with
    | some _ => ((e.emitIndent).emit node.Name).emit "() = default;\n\n"
    | none => e
  let e := node.Methods.foldl CppCodeEmitter.VisitMethod e
  let e := { e with indent := e.indent - 1 }
  e.emit "\x7d;\n\n"

/-- One iteration of the include loop of `VisitTranslationUnit`. -/
def CppCodeEmitter.visitInclude (e : CppCodeEmitter) (inc : CppInclude) : CppCodeEmitter :=
  if inc.IsSystem then
    ((e.emit "#include <").emit inc.Path).emit ">\n"
  else
    ((e.emit "#include \"").emit inc.Path).emit "\"\n"

/-- The method `VisitTranslationUnit`. -/
def CppCodeEmitter.VisitTranslationUnit (e : CppCodeEmitter) (node : CppTranslationUnit) :
    CppCodeEmitter :=
  let e := e.emit "#pragma once\n\n"
  let e := node.Includes.foldl CppCodeEmitter.visitInclude e
  let e := e.emit "\n"
  node.Structs.foldl CppCodeEmitter.VisitStruct e

/-- The method `GetOutput`. -/
def CppCodeEmitter.GetOutput (e : CppCodeEmitter) : String :=
  e.output

/-- The Go source text of `main`. -/
def goSource : String :=
  "\npackage main\n\ntype Person struct \x7b\nID    int64\nName  string\nEmail *string\nTags  []string\nMeta  map[string]int\n\x7d\n\ntype Address struct \x7b\nStreet  string\nCity    string\nZipCode *int\n\x7d\n"

/-- The field list of the struct `Person` declared in `goSource`. -/
def personFields : List GoField :=
  [ .mk ["ID"] (.ident "int64"),
    .mk ["Name"] (.ident "string"),
    .mk ["Email"] (.starExpr (.ident "string")),
    .mk ["Tags"] (.arrayType none (.ident "string")),
    .mk ["Meta"] (.mapType (.ident "string") (.ident "int")) ]

/-- The field list of the struct `Address` declared in `goSource`. -/
def addressFields : List GoField :=
  [ .mk ["Street"] (.ident "string"),
    .mk ["City"] (.ident "string"),
    .mk ["ZipCode"] (.starExpr (.ident "int")) ]

/-- The syntax tree of `goSource`: two type declarations. -/
def goSourceFile : GoFile :=
  { Decls :=
      [ .genDecl [.typeSpec "Person" (.structType personFields)],
        .genDecl [.typeSpec "Address" (.structType addressFields)] ] }

/-- The emitter `&CppCodeEmitter{}` of `main`. -/
def CppCodeEmitter.fresh : CppCodeEmitter :=
  { output := "", indent := 0 }

/-! ## Notions the statements use -/

/-- The type `t` with is-const and is-reference set and every other member unchanged. -/
def CppType.withConstRef : CppType → CppType
  | .mk b p _ _ tm => .mk b p true true tm

mutual
/-- No qualifier at any level: is-const, is-reference and is-pointer are false on
the type and on every template argument at any depth. -/
def CppType.unqualified : CppType → Bool
  | .mk _ isPointer isRef isConst template =>
    !isPointer && !isRef && !isConst &&
      (match template with
       | some tmpl => tmpl.unqualified
       | none => true)
/-- Every argument of the template is unqualified. -/
def CppTemplate.unqualified : CppTemplate → Bool
  | .mk _ args => CppType.unqualifiedAll args
/-- Every type of the list is unqualified. -/
def CppType.unqualifiedAll : List CppType → Bool
  | [] => true
  | a :: rest => a.unqualified && CppType.unqualifiedAll rest
end

mutual
/-- Template nesting depth: 0 without template, otherwise 1 plus the maximum depth
of the template arguments. -/
def CppType.depth : CppType → Nat
  | .mk _ _ _ _ none => 0
  | .mk _ _ _ _ (some tmpl) => 1 + tmpl.maxArgDepth
/-- The maximum depth of the arguments of a template. -/
def CppTemplate.maxArgDepth : CppTemplate → Nat
  | .mk _ args => CppType.maxDepth args
/-- The maximum depth of the types of a list (0 for the empty list). -/
def CppType.maxDepth : List CppType → Nat
  | [] => 0
  | a :: rest => max a.depth (CppType.maxDepth rest)
end

/-- Built only from identifiers, pointers, slices and maps. -/
def GoExpr.isSimple : GoExpr → Bool
  | .ident _ => true
  | .starExpr x => x.isSimple
  | .arrayType none elt => elt.isSimple
  | .arrayType (some _) _ => false
  | .mapType k v => k.isSimple && v.isSimple
  | _ => false

/-- Constructor nesting depth: 0 for an identifier, otherwise 1 plus the maximum
depth of the operands. -/
def GoExpr.depth : GoExpr → Nat
  | .starExpr x => 1 + x.depth
  | .arrayType _ elt => 1 + elt.depth
  | .mapType k v => 1 + max k.depth v.depth
  | _ => 0

/-! ## A struct with an anonymous nested struct -/

/-- The Go source text `type Outer struct { Inner struct { X int } }` of a package. -/
def nestedSource : String :=
  "package p\n\ntype Outer struct \x7b\n\tInner struct \x7b\n\t\tX int\n\t\x7d\n\x7d\n"

/-- The field list of the anonymous struct of `nestedSource`. -/
def innerFields : List GoField :=
  [.mk ["X"] (.ident "int")]

/-- The field list of `Outer` in `nestedSource`. -/
def outerFields : List GoField :=
  [.mk ["Inner"] (.structType innerFields)]

/-- The syntax tree of `nestedSource`. -/
def nestedFile : GoFile :=
  { Decls := [.genDecl [.typeSpec "Outer" (.structType outerFields)]] }

/-- A parser defined on `nestedSource` alone: it rejects every other text. -/
def parseKnown (src : String) : Except String GoFile :=
  if src = nestedSource then .ok nestedFile
  else .error "unexpected source"

/-! ## The texts the emitter appends -/

/-- Concatenation of texts in list order. -/
def concatTexts : List String → String
  | [] => ""
  | s :: rest => s ++ concatTexts rest

/-- The text `VisitType` emits for a type: the output of `&CppCodeEmitter{}` after the visit. -/
def typeText (T : CppType) : String :=
  (CppCodeEmitter.fresh.VisitType T).output

/-- The text `emitIndent` emits at indentation `indent`: four spaces, `indent` times. -/
def indentText (indent : Int) : String :=
  concatTexts (List.replicate indent.toNat "    ")

/-- The text one iteration of the body loop of `VisitMethod` emits for a statement. -/
def stmtText (s : CppStmt) : String :=
  (CppCodeEmitter.fresh.visitStmt s).output

/-- The text `VisitMethod` emits for a method by an emitter at indentation `indent`. -/
def methodText (indent : Int) (m : CppMethod) : String :=
  (CppCodeEmitter.VisitMethod { output := "", indent := indent } m).output

/-- The text `VisitField` emits for a field by an emitter at indentation `indent`. -/
def fieldText (indent : Int) (f : CppField) : String :=
  (CppCodeEmitter.VisitField { output := "", indent := indent } f).output

/-- The text `VisitStruct` emits for a struct by an emitter at indentation `indent`. -/
def structText (indent : Int) (s : CppStruct) : String :=
  (CppCodeEmitter.VisitStruct { output := "", indent := indent } s).output

/-- The include line of an entry: `#include <path>` for a system entry,
`#include "path"` for a local one, closed by a newline. -/
def includeLine (inc : CppInclude) : String :=
  if inc.IsSystem then "#include <" ++ inc.Path ++ ">\n" else "#include \"" ++ inc.Path ++ "\"\n"

/-- The text `VisitTranslationUnit` emits for a unit by an emitter at indentation `indent`. -/
def unitText (indent : Int) (u : CppTranslationUnit) : String :=
  (CppCodeEmitter.VisitTranslationUnit { output := "", indent := indent } u).output

/-! ## Newlines in names -/

/-- The number of newline characters of a text. -/
def newlines (s : String) : Nat :=
  s.data.count '\n'

mutual
/-- No base name of the type, at any depth, contains a newline. -/
def CppType.noNewline : CppType → Bool
  | .mk base _ _ _ template =>
    newlines base == 0 &&
      (match template with
       | some tmpl => tmpl.noNewline
       | none => true)
/-- No base name of an argument of the template contains a newline. -/
def CppTemplate.noNewline : CppTemplate → Bool
  | .mk _ args => CppType.noNewlineAll args
/-- No base name of a type of the list contains a newline. -/
def CppType.noNewlineAll : List CppType → Bool
  | [] => true
  | a :: rest => a.noNewline && CppType.noNewlineAll rest
end

/-- An identifier that is the whole expression contains no newline. -/
def CppExpr.noNewline : CppExpr → Bool
  | .CppIdent name => newlines name == 0
  | .CppMemberAccess _ _ => true

/-- The identifiers of the statement contain no newline. -/
def CppStmt.noNewline : CppStmt → Bool
  | .CppReturn expr => expr.noNewline
  | .CppAssign lhs rhs => lhs.noNewline && rhs.noNewline

/-- The name of the method, the base names of its types, the names of its
parameters and the identifiers of its body contain no newline. -/
def CppMethod.noNewline (m : CppMethod) : Bool :=
  newlines m.Name == 0 &&
    (match m.ReturnType with
     | some rt => rt.noNewline
     | none => true) &&
    m.Params.all (fun p => newlines p.Name == 0 && p.Typ.noNewline) &&
    m.Body.all CppStmt.noNewline

/-! ## Struct declarations of a file -/

/-- The struct a type specification declares, if it is struct-shaped: its name and
its field list. -/
def structOfSpec : GoSpec → List (String × List GoField)
  | .typeSpec name (.structType fields) => [(name, fields)]
  | _ => []

mutual
/-- The struct-shaped type specifications at or below a declaration, in source order. -/
def structSpecsOfDecl : GoDecl → List (String × List GoField)
  | .genDecl specs => structSpecsOfSpecs specs
  | .funcDecl _ body => structSpecsOfStmts body
/-- The struct-shaped type specifications at or below a specification, in source order. -/
def structSpecsOfSpec : GoSpec → List (String × List GoField)
  | .typeSpec name (.structType fields) => [(name, fields)]
  | .typeSpec _ _ => []
  | .importSpec => []
  | .valueSpec values => structSpecsOfValues values
/-- The struct-shaped type specifications at or below the specifications of a list. -/
def structSpecsOfSpecs : List GoSpec → List (String × List GoField)
  | [] => []
  | s :: rest => structSpecsOfSpec s ++ structSpecsOfSpecs rest
/-- The struct-shaped type specifications at or below a statement, in source order. -/
def structSpecsOfStmt : GoStmt → List (String × List GoField)
  | .declStmt d => structSpecsOfDecl d
  | .blockStmt l => structSpecsOfStmts l
  | .otherStmt children => structSpecsOfNodes children
/-- The struct-shaped type specifications below the statements of a list, in source order. -/
def structSpecsOfStmts : List GoStmt → List (String × List GoField)
  | [] => []
  | s :: rest => structSpecsOfStmt s ++ structSpecsOfStmts rest
/-- The struct-shaped type specifications below an expression, in source order. -/
def structSpecsOfValue : GoValue → List (String × List GoField)
  | .funcLit body => structSpecsOfStmts body
  | .otherValue children => structSpecsOfValues children
/-- The struct-shaped type specifications below the expressions of a list. -/
def structSpecsOfValues : List GoValue → List (String × List GoField)
  | [] => []
  | v :: rest => structSpecsOfValue v ++ structSpecsOfValues rest
/-- The struct-shaped type specifications at or below a node under a statement. -/
def structSpecsOfNode : GoNode → List (String × List GoField)
  | .value x => structSpecsOfValue x
  | .stmt s => structSpecsOfStmt s
/-- The struct-shaped type specifications at or below the nodes of a list. -/
def structSpecsOfNodes : List GoNode → List (String × List GoField)
  | [] => []
  | n :: rest => structSpecsOfNode n ++ structSpecsOfNodes rest
end

/-- The struct-shaped type declarations at top level of a file, in file order. -/
def topLevelStructSpecs (f : GoFile) : List (String × List GoField) :=
  f.Decls.flatMap (fun d =>
    match d with
    | .genDecl specs => specs.flatMap structOfSpec
    | .funcDecl _ _ => [])

/-- The Go source text of a package whose function `f` declares the struct `Local`. -/
def localSource : String :=
  "package p\n\nfunc f() \x7b\n\ttype Local struct \x7b\n\t\tX int\n\t\x7d\n\x7d\n"

/-- The syntax tree of `localSource`. -/
def localFile : GoFile :=
  { Decls :=
      [.funcDecl "f" [.declStmt (.genDecl [.typeSpec "Local" (.structType innerFields)])]] }

/-- The Go source text of a package whose variable `f` is a function literal that
declares the struct `T`. -/
def varSource : String :=
  "package p\n\nvar f = func() \x7b type T struct \x7b X int \x7d \x7d\n"

/-- The syntax tree of `varSource`. -/
def varFile : GoFile :=
  { Decls :=
      [.genDecl [.valueSpec
        [.funcLit [.declStmt (.genDecl [.typeSpec "T" (.structType innerFields)])]]]] }

/-- The Go source text of a package whose functions `f` and `g` each declare a
struct `T`. -/
def twoLocalsSource : String :=
  "package p\n\nfunc f() \x7b type T struct \x7b X int \x7d \x7d\n\nfunc g() \x7b type T struct \x7b X int \x7d \x7d\n"

/-- The syntax tree of `twoLocalsSource`. -/
def twoLocalsFile : GoFile :=
  { Decls :=
      [ .funcDecl "f" [.declStmt (.genDecl [.typeSpec "T" (.structType innerFields)])],
        .funcDecl "g" [.declStmt (.genDecl [.typeSpec "T" (.structType innerFields)])] ] }

/-- A parser defined on `localSource`, `varSource` and `twoLocalsSource` alone: it
rejects every other text. -/
def parseLocal (src : String) : Except String GoFile :=
  if src = localSource then .ok localFile
  else if src = varSource then .ok varFile
  else if src = twoLocalsSource then .ok twoLocalsFile
  else .error "unexpected source"

/-! ## The JSON exporter (`src/pr-go/main.go`) -/

/-- The values `goTypeToPragJSON` builds: strings, booleans, slices of descriptors
and `map[string]interface{}` objects, by their key/value entries. -/
inductive JsonValue where
  | str (s : String)
  | bool (b : Bool)
  | array (items : List JsonValue)
  | object (entries : List (String × JsonValue))

mutual
/-- The function `goTypeToPragJSON`. -/
def goTypeToPragJSON : GoExpr → JsonValue
  | .ident name => .object [("kind", .str "primitive"), ("name", .str name)]
  | .structType fields =>
    .object [("kind", .str "struct"), ("anonymous", .bool true),
      ("fields", .array (pragFieldsLoop [] fields))]
  | .arrayType _ elt =>
    .object [("kind", .str "generic"), ("name", .str "Vec"),
      ("args", .array [goTypeToPragJSON elt])]
  | .mapType key value =>
    .object [("kind", .str "generic"), ("name", .str "Map"),
      ("args", .array [goTypeToPragJSON key, goTypeToPragJSON value])]
  | .starExpr x =>
    .object [("kind", .str "generic"), ("name", .str "Option"),
      ("args", .array [goTypeToPragJSON x])]
  | .selectorExpr (.ident name) sel =>
    .object [("kind", .str "primitive"), ("name", .str (name ++ "." ++ sel))]
  | .selectorExpr _ _ => .object [("kind", .str "primitive"), ("name", .str "unknown")]
  | .other _ => .object [("kind", .str "primitive"), ("name", .str "unknown")]
/-- The loop of `goTypeToPragJSON` over `t.Fields.List`: a field with a non-empty
first name appends its name and the descriptor of its type to `fields`. -/
def pragFieldsLoop (fields : List JsonValue) : List GoField → List JsonValue
  | [] => fields
  | .mk names ty :: rest =>
    let fieldName := match names with
      | n :: _ => n
      | [] => ""
    if fieldName != "" then
      pragFieldsLoop
        (fields ++ [.object [("name", .str fieldName), ("type", goTypeToPragJSON ty)]]) rest
    else
      pragFieldsLoop fields rest
end

/-- The value under a key of an object. -/
def JsonValue.get (key : String) : JsonValue → Option JsonValue
  | .object entries => entries.lookup key
  | _ => none

/-- The string under the key `kind` of an object. -/
def JsonValue.kind (v : JsonValue) : Option String :=
  match v.get "kind" with
  | some (.str k) => some k
  | _ => none

/-- The shape of a type descriptor: kind `primitive`; or kind `generic` with name
`Vec` and one argument, `Map` and two arguments or `Option` and one argument,
every argument being a descriptor; or kind `struct`, marked anonymous, with a
field list whose entries have a descriptor under `type`. -/
def JsonValue.isDescriptor (v : JsonValue) : Bool :=
  match v.kind with
  | some "primitive" => true
  | some "generic" =>
    (match v.get "name", v.get "args" with
     | some (.str n), some (.array args) =>
       ((n == "Vec" && args.length == 1) || (n == "Map" && args.length == 2) ||
          (n == "Option" && args.length == 1)) &&
         args.all (fun a => a.kind.isSome)
     | _, _ => false)
  | some "struct" =>
    (match v.get "anonymous", v.get "fields" with
     | some (.bool true), some (.array fields) =>
       fields.all (fun f =>
         match f.get "type" with
         | some ty => ty.kind.isSome
         | none => false)
     | _, _ => false)
  | _ => false

mutual
/-- Every object with a key `kind` inside the value, at any depth, has the shape
of a type descriptor. -/
def JsonValue.descriptorsOK : JsonValue → Bool
  | .str _ => true
  | .bool _ => true
  | .array items => JsonValue.descriptorsOKList items
  | .object entries =>
    ((entries.lookup "kind").isNone || (JsonValue.object entries).isDescriptor) &&
      JsonValue.descriptorsOKEntries entries
/-- The values of a list satisfy `descriptorsOK`. -/
def JsonValue.descriptorsOKList : List JsonValue → Bool
  | [] => true
  | v :: rest => v.descriptorsOK && JsonValue.descriptorsOKList rest
/-- The values of the entries of an object satisfy `descriptorsOK`. -/
def JsonValue.descriptorsOKEntries : List (String × JsonValue) → Bool
  | [] => true
  | (_, v) :: rest => v.descriptorsOK && JsonValue.descriptorsOKEntries rest
end

/-- The entries of a field list have a descriptor under `type`. -/
def fieldEntriesOK (fields : List JsonValue) : Bool :=
  fields.all (fun f =>
    match f.get "type" with
    | some ty => ty.kind.isSome
    | none => false)

/-! ## Theorems -/

/-! ### The two loops of `transformStruct` as list expressions -/

theorem transformFields_eq (t : GoToCppTransformer) (fields : List GoField) :
    ∀ acc, transformFields t acc fields =
      acc ++ fields.flatMap (fun f => f.Names.map (fun n => { Name := n, Typ := transformType t f.Typ })) := by
  induction fields with
  | nil => intro acc; simp [transformFields]
  | cons f rest ih =>
    intro acc
    have hin : ∀ (names : List String) (a : List CppField),
        names.foldl (fun a n => a ++ [({ Name := n, Typ := transformType t f.Typ } : CppField)]) a
          = a ++ names.map (fun n => { Name := n, Typ := transformType t f.Typ }) := by
      intro names
      induction names with
      | nil => intro a; simp
      | cons n ns ihn => intro a; simp [ihn]
    have := ih (acc ++ f.Names.map (fun n => ({ Name := n, Typ := transformType t f.Typ } : CppField)))
    simp only [transformFields] at this ⊢
    simp [List.foldl_cons, hin, this]

theorem generateAccessors_eq (fields : List CppField) :
    ∀ acc, generateAccessors acc fields =
      acc ++ fields.flatMap (fun f => [getterOf f, setterOf f]) := by
  induction fields with
  | nil => intro acc; simp [generateAccessors]
  | cons f rest ih =>
    intro acc
    have h := ih ((acc ++ [getterOf f]) ++ [setterOf f])
    unfold generateAccessors at h ⊢
    rw [List.foldl_cons, h]
    simp

theorem pairs_getElem?_even {α β : Type} (g s : α → β) (l : List α) :
    ∀ i, (l.flatMap (fun f => [g f, s f]))[2 * i]? = l[i]?.map g := by
  induction l with
  | nil => intro i; simp
  | cons a rest ih =>
    intro i
    cases i with
    | zero => simp
    | succ k =>
      have : 2 * (k + 1) = (2 * k) + 1 + 1 := by ring
      simp [this, ih]

theorem pairs_getElem?_odd {α β : Type} (g s : α → β) (l : List α) :
    ∀ i, (l.flatMap (fun f => [g f, s f]))[2 * i + 1]? = l[i]?.map s := by
  induction l with
  | nil => intro i; simp
  | cons a rest ih =>
    intro i
    cases i with
    | zero => simp
    | succ k =>
      have : 2 * (k + 1) + 1 = (2 * k + 1) + 1 + 1 := by ring
      simp [this, ih]

theorem pairs_length {α β : Type} (g s : α → β) (l : List α) :
    (l.flatMap (fun f => [g f, s f])).length = 2 * l.length := by
  induction l with
  | nil => simp
  | cons a rest ih => simp [ih]; ring

/-- Positions `2i` and `2i+1` of the `Methods` of a transformed struct hold the
getter and the setter built for its `i`-th field. -/
theorem transformStruct_methods_at (t : GoToCppTransformer) (name : String)
    (goFields : List GoField) (i : Nat) :
    (transformStruct t name goFields).Methods[2 * i]? =
      (transformStruct t name goFields).Fields[i]?.map getterOf ∧
    (transformStruct t name goFields).Methods[2 * i + 1]? =
      (transformStruct t name goFields).Fields[i]?.map setterOf := by
  simp only [transformStruct, generateAccessors_eq, List.nil_append]
  exact ⟨pairs_getElem?_even _ _ _ i, pairs_getElem?_odd _ _ _ i⟩

/-! ### C1: shape of the transformed struct -/

/-- C1. For every struct name and every Go struct, with `names` the field names of
its declarations in declaration order (`N` of them), `transformStruct` returns a
struct with exactly `N` fields whose names are `names`, with a default
constructor and a `Methods` list of length `2N` (`2N+1` methods in total), in
which positions `2i` and `2i+1` hold the getter and the setter of the `i`-th field. -/
theorem transformStruct_shape (t : GoToCppTransformer) (name : String) (goFields : List GoField) :
    (transformStruct t name goFields).Fields.length = (goFields.flatMap GoField.Names).length ∧
    (transformStruct t name goFields).Fields.map CppField.Name = goFields.flatMap GoField.Names ∧
    (transformStruct t name goFields).Constructor =
      some { Name := name, ReturnType := none, Params := [], IsConst := false, Body := [] } ∧
    (transformStruct t name goFields).Methods.length = 2 * (goFields.flatMap GoField.Names).length ∧
    ((transformStruct t name goFields).Constructor.toList ++
        (transformStruct t name goFields).Methods).length
      = 2 * (goFields.flatMap GoField.Names).length + 1 ∧
    ∀ i : Nat,
      (transformStruct t name goFields).Methods[2 * i]? =
        (transformStruct t name goFields).Fields[i]?.map getterOf ∧
      (transformStruct t name goFields).Methods[2 * i + 1]? =
        (transformStruct t name goFields).Fields[i]?.map setterOf := by
  have hnames : (transformStruct t name goFields).Fields.map CppField.Name
      = goFields.flatMap GoField.Names := by
    simp only [transformStruct, transformFields_eq, List.nil_append]
    induction goFields with
    | nil => simp
    | cons f rest ih => simp [List.flatMap_cons, ih, Function.comp_def]
  have hlen : (transformStruct t name goFields).Fields.length
      = (goFields.flatMap GoField.Names).length := by
    rw [← hnames, List.length_map]
  have hm : (transformStruct t name goFields).Methods.length
      = 2 * (goFields.flatMap GoField.Names).length := by
    rw [← hlen]
    simp only [transformStruct, generateAccessors_eq, List.nil_append, pairs_length]
  refine ⟨hlen, hnames, rfl, hm, ?_, ?_⟩
  · rw [List.length_append, hm]
    simp [transformStruct]
    omega
  · exact transformStruct_methods_at t name goFields

/-! ### C3, C4, C5: the type mapper -/

/-- C3. A pointer maps to `std::optional` of the mapped pointee, a slice (or array)
to `std::vector` of the mapped element, a map to `std::unordered_map` of the
mapped key and the mapped value in that order, an identifier to `mapBasicType`
of its name. -/
theorem transformType_rules (t : GoToCppTransformer) :
    (∀ T : GoExpr, (transformType t (.starExpr T)).Base = "std::optional" ∧
      ((transformType t (.starExpr T)).Template.map CppTemplate.Args) = some [transformType t T]) ∧
    (∀ (len : Option GoExpr) (T : GoExpr),
      (transformType t (.arrayType len T)).Base = "std::vector" ∧
      ((transformType t (.arrayType len T)).Template.map CppTemplate.Args)
        = some [transformType t T]) ∧
    (∀ K V : GoExpr, (transformType t (.mapType K V)).Base = "std::unordered_map" ∧
      ((transformType t (.mapType K V)).Template.map CppTemplate.Args)
        = some [transformType t K, transformType t V]) ∧
    (∀ name : String, transformType t (.ident name) = mapBasicType t name) := by
  refine ⟨?_, ?_, ?_, ?_⟩
  · intro T; simp [transformType, CppType.Base, CppType.Template, CppTemplate.Args]
  · intro len T; simp [transformType, CppType.Base, CppType.Template, CppTemplate.Args]
  · intro K V; simp [transformType, CppType.Base, CppType.Template, CppTemplate.Args]
  · intro name; simp [transformType]

/-- A key that is not among the keys of an association list is not found. -/
theorem lookup_eq_none_of_not_mem (k : String) (l : List (String × String))
    (h : k ∉ l.map Prod.fst) : l.lookup k = none := by
  induction l with
  | nil => rfl
  | cons p rest ih =>
    obtain ⟨a, b⟩ := p
    simp only [List.map_cons, List.mem_cons, not_or] at h
    have hne : (k == a) = false := by simpa using h.1
    simp [List.lookup, hne, ih h.2]

/-- C4. A type name that is not a key of the table is mapped to the type with
that name as base, no template and no qualifier; the result does not depend on
the transformer the method is called on, so mapping the name again gives the
same type. -/
theorem mapBasicType_unknown (t : GoToCppTransformer) (goType : String)
    (h : goType ∉ typeMap.map Prod.fst) :
    (mapBasicType t goType).Base = goType ∧
    (mapBasicType t goType).Template = none ∧
    (mapBasicType t goType).IsConst = false ∧
    (mapBasicType t goType).IsRef = false ∧
    (mapBasicType t goType).IsPointer = false ∧
    ∀ t2 : GoToCppTransformer, mapBasicType t2 goType = mapBasicType t goType := by
  have hl : typeMap.lookup goType = none := lookup_eq_none_of_not_mem goType typeMap h
  simp [mapBasicType, hl, CppType.ofBase, CppType.Base, CppType.Template, CppType.IsConst,
    CppType.IsRef, CppType.IsPointer]

/-- Witness of C4 at the name `Address`. -/
theorem mapBasicType_unknown_witness :
    "Address" ∉ typeMap.map Prod.fst ∧
    (mapBasicType NewGoToCppTransformer "Address").Base = "Address" ∧
    (mapBasicType NewGoToCppTransformer "Address").Template = none :=
  have h : "Address" ∉ typeMap.map Prod.fst := by decide
  ⟨h, (mapBasicType_unknown NewGoToCppTransformer "Address" h).1,
    (mapBasicType_unknown NewGoToCppTransformer "Address" h).2.1⟩

/-- C5, at the names the table lacks. The 8-bit and 16-bit integer names are not
keys of `typeMap`: `mapBasicType` passes `int8`, `int16`, `uint8` and `uint16`
through unchanged, while `byte` (the same Go type as `uint8`) becomes `uint8_t`
and the 32-bit and 64-bit names, the floats, `bool` and `string` resolve as the
table says. -/
theorem mapBasicType_small_integers (t : GoToCppTransformer) :
    mapBasicType t "int8" = CppType.ofBase "int8" ∧
    mapBasicType t "int16" = CppType.ofBase "int16" ∧
    mapBasicType t "uint8" = CppType.ofBase "uint8" ∧
    mapBasicType t "uint16" = CppType.ofBase "uint16" ∧
    mapBasicType t "byte" = CppType.ofBase "uint8_t" ∧
    mapBasicType t "int32" = CppType.ofBase "int32_t" ∧
    mapBasicType t "int64" = CppType.ofBase "int64_t" ∧
    mapBasicType t "uint32" = CppType.ofBase "uint32_t" ∧
    mapBasicType t "uint64" = CppType.ofBase "uint64_t" ∧
    mapBasicType t "float32" = CppType.ofBase "float" ∧
    mapBasicType t "float64" = CppType.ofBase "double" ∧
    mapBasicType t "bool" = CppType.ofBase "bool" ∧
    mapBasicType t "string" = CppType.ofBase "std::string" := by
  refine ⟨?_, ?_, ?_, ?_, ?_, ?_, ?_, ?_, ?_, ?_, ?_, ?_, ?_⟩ <;> rfl

/-! ### C8: qualifiers -/

/-- A type made by `&CppType{Base: b}` carries no qualifier. -/
theorem ofBase_unqualified (b : String) : (CppType.ofBase b).unqualified = true := by
  simp [CppType.ofBase, CppType.unqualified]

/-- The result of `mapBasicType` carries no qualifier. -/
theorem mapBasicType_unqualified (t : GoToCppTransformer) (goType : String) :
    (mapBasicType t goType).unqualified = true := by
  unfold mapBasicType
  split <;> exact ofBase_unqualified _

/-- The result of `transformType` carries no qualifier at any level. -/
theorem transformType_unqualified (t : GoToCppTransformer) :
    ∀ goType : GoExpr, (transformType t goType).unqualified = true
  | .ident name => by simpa [transformType] using mapBasicType_unqualified t name
  | .starExpr x => by
    have h := transformType_unqualified t x
    simp [transformType, CppType.unqualified, CppTemplate.unqualified, CppType.unqualifiedAll, h]
  | .arrayType _ elt => by
    have h := transformType_unqualified t elt
    simp [transformType, CppType.unqualified, CppTemplate.unqualified, CppType.unqualifiedAll, h]
  | .mapType k v => by
    have hk := transformType_unqualified t k
    have hv := transformType_unqualified t v
    simp [transformType, CppType.unqualified, CppTemplate.unqualified, CppType.unqualifiedAll,
      hk, hv]
  | .structType _ => by simpa [transformType] using ofBase_unqualified "unknown"
  | .selectorExpr _ _ => by simpa [transformType] using ofBase_unqualified "unknown"
  | .other _ => by simpa [transformType] using ofBase_unqualified "unknown"

/-- An unqualified type is its base and its template, with the three flags false. -/
theorem eq_mk_of_unqualified (T : CppType) (h : T.unqualified = true) :
    T = .mk T.Base false false false T.Template ∧
    (∀ tmpl, T.Template = some tmpl → tmpl.unqualified = true) := by
  cases T with
  | mk b p r c tm =>
    cases tm with
    | none => simp_all [CppType.unqualified, CppType.Base, CppType.Template]
    | some tmpl => simp_all [CppType.unqualified, CppType.Base, CppType.Template]

/-- Every field of a transformed struct is a declared name with the mapped type of
its declaration. -/
theorem mem_transformStruct_fields (t : GoToCppTransformer) (name : String)
    (goFields : List GoField) (fld : CppField)
    (h : fld ∈ (transformStruct t name goFields).Fields) :
    ∃ gf ∈ goFields, fld.Name ∈ gf.Names ∧ fld.Typ = transformType t gf.Typ := by
  simp only [transformStruct, transformFields_eq, List.nil_append, List.mem_flatMap,
    List.mem_map] at h
  obtain ⟨gf, hgf, n, hn, rfl⟩ := h
  exact ⟨gf, hgf, hn, rfl⟩

/-- The stored type of every field of a transformed struct carries no qualifier. -/
theorem transformStruct_field_unqualified (t : GoToCppTransformer) (name : String)
    (goFields : List GoField) (fld : CppField)
    (h : fld ∈ (transformStruct t name goFields).Fields) : fld.Typ.unqualified = true := by
  obtain ⟨gf, _, _, hty⟩ := mem_transformStruct_fields t name goFields fld h
  rw [hty]
  exact transformType_unqualified t gf.Typ

/-- C8. The type `transformType` returns has is-const, is-reference and is-pointer
false at every level. In a struct returned by `transformStruct` the stored field
types carry no qualifier at any level, the constructor has no return type and no
parameter, the method at position `2i` (a getter) has no parameter and a return
type with is-const and is-reference set, the method at position `2i+1` (a
setter) returns the unqualified `void` and has one parameter whose type has
is-const and is-reference set; below the top level of those two types nothing is
qualified. -/
theorem qualifiers_only_on_accessors (t : GoToCppTransformer) :
    (∀ goType : GoExpr, (transformType t goType).unqualified = true) ∧
    ∀ (name : String) (goFields : List GoField),
      (∀ fld ∈ (transformStruct t name goFields).Fields, fld.Typ.unqualified = true) ∧
      (∀ c, (transformStruct t name goFields).Constructor = some c →
        c.ReturnType = none ∧ c.Params = []) ∧
      ∀ (i : Nat) (m : CppMethod),
        ((transformStruct t name goFields).Methods[2 * i]? = some m →
          m.Params = [] ∧
          ∃ rt, m.ReturnType = some rt ∧ rt.IsConst = true ∧ rt.IsRef = true ∧
            rt.IsPointer = false ∧ ∀ tmpl, rt.Template = some tmpl → tmpl.unqualified = true) ∧
        ((transformStruct t name goFields).Methods[2 * i + 1]? = some m →
          m.ReturnType = some (CppType.ofBase "void") ∧
          (CppType.ofBase "void").unqualified = true ∧
          ∃ p, m.Params = [p] ∧ p.Typ.IsConst = true ∧ p.Typ.IsRef = true ∧
            p.Typ.IsPointer = false ∧
            ∀ tmpl, p.Typ.Template = some tmpl → tmpl.unqualified = true) := by
  refine ⟨transformType_unqualified t, fun name goFields => ⟨?_, ?_, ?_⟩⟩
  · exact transformStruct_field_unqualified t name goFields
  · intro c hc
    simp only [transformStruct, Option.some.injEq] at hc
    subst hc
    exact ⟨rfl, rfl⟩
  · intro i m
    have hidx := transformStruct_methods_at t name goFields i
    constructor
    · intro hm
      rw [hidx.1] at hm
      cases hf : (transformStruct t name goFields).Fields[i]? with
      | none => simp [hf] at hm
      | some fld =>
        have hmem : fld ∈ (transformStruct t name goFields).Fields := List.getElem?_mem hf
        have hq := (eq_mk_of_unqualified fld.Typ
          (transformStruct_field_unqualified t name goFields fld hmem)).2
        simp only [hf, Option.map_some', Option.some.injEq] at hm
        subst hm
        exact ⟨rfl, _, rfl, rfl, rfl, rfl, hq⟩
    · intro hm
      rw [hidx.2] at hm
      cases hf : (transformStruct t name goFields).Fields[i]? with
      | none => simp [hf] at hm
      | some fld =>
        have hmem : fld ∈ (transformStruct t name goFields).Fields := List.getElem?_mem hf
        have hq := (eq_mk_of_unqualified fld.Typ
          (transformStruct_field_unqualified t name goFields fld hmem)).2
        simp only [hf, Option.map_some', Option.some.injEq] at hm
        subst hm
        exact ⟨rfl, ofBase_unqualified "void", _, rfl, rfl, rfl, rfl, hq⟩

/-! ### C2: the accessors of a field -/

/-- C2. For the `i`-th field of a struct returned by `transformStruct`, with name
`f` and mapped type `T`, position `2i` of `Methods` holds the getter `get_f` (no
parameter, const, return type `T` with is-const and is-reference set, body
`return f`) and position `2i+1`, immediately after it, the setter `set_f`
(return type plain `void`, one parameter `val` of type `T` with is-const and
is-reference set, not const, body `f = val`). -/
theorem transformStruct_accessors (t : GoToCppTransformer) (name : String)
    (goFields : List GoField) (i : Nat) (fld : CppField)
    (h : (transformStruct t name goFields).Fields[i]? = some fld) :
    (transformStruct t name goFields).Methods[2 * i]? =
      some { Name := "get_" ++ fld.Name
             ReturnType := some fld.Typ.withConstRef
             Params := []
             IsConst := true
             Body := [.CppReturn (.CppIdent fld.Name)] } ∧
    (transformStruct t name goFields).Methods[2 * i + 1]? =
      some { Name := "set_" ++ fld.Name
             ReturnType := some (.mk "void" false false false none)
             Params := [{ Name := "val", Typ := fld.Typ.withConstRef }]
             IsConst := false
             Body := [.CppAssign (.CppIdent fld.Name) (.CppIdent "val")] } := by
  have hmem : fld ∈ (transformStruct t name goFields).Fields := List.getElem?_mem h
  have hT := (eq_mk_of_unqualified fld.Typ
    (transformStruct_field_unqualified t name goFields fld hmem)).1
  have hcr : fld.Typ.withConstRef = .mk fld.Typ.Base false true true fld.Typ.Template := by
    conv => lhs; rw [hT]
    rfl
  have hidx := transformStruct_methods_at t name goFields i
  rw [hidx.1, hidx.2, h, hcr]
  exact ⟨rfl, rfl⟩

/-- Witness of C2: the field `Email` (index 2) of `Person`. -/
theorem transformStruct_accessors_witness :
    (transformStruct NewGoToCppTransformer "Person" personFields).Methods[4]? =
      some { Name := "get_Email"
             ReturnType := some (.mk "std::optional" false true true
               (some (.mk "optional" [.mk "std::string" false false false none])))
             Params := []
             IsConst := true
             Body := [.CppReturn (.CppIdent "Email")] } :=
  (transformStruct_accessors NewGoToCppTransformer "Person" personFields 2
    { Name := "Email", Typ := transformType NewGoToCppTransformer (.starExpr (.ident "string")) }
    rfl).1

/-! ### C7: nesting depth -/

/-- The result of `mapBasicType` has no template. -/
theorem mapBasicType_depth (t : GoToCppTransformer) (goType : String) :
    (mapBasicType t goType).depth = 0 := by
  unfold mapBasicType
  split <;> simp [CppType.ofBase, CppType.depth]

/-- C7. For a Go type expression built only from identifiers, pointers, slices and
maps, the template nesting depth of the result of `transformType` equals the
constructor nesting depth of the expression. -/
theorem transformType_depth (t : GoToCppTransformer) :
    ∀ goType : GoExpr, goType.isSimple = true →
      (transformType t goType).depth = goType.depth
  | .ident name, _ => by simpa [transformType, GoExpr.depth] using mapBasicType_depth t name
  | .starExpr x, h => by
    have ih := transformType_depth t x (by simpa [GoExpr.isSimple] using h)
    simp [transformType, CppType.depth, CppTemplate.maxArgDepth, CppType.maxDepth,
      GoExpr.depth, ih]
  | .arrayType none elt, h => by
    have ih := transformType_depth t elt (by simpa [GoExpr.isSimple] using h)
    simp [transformType, CppType.depth, CppTemplate.maxArgDepth, CppType.maxDepth,
      GoExpr.depth, ih]
  | .arrayType (some _) _, h => by simp [GoExpr.isSimple] at h
  | .mapType k v, h => by
    have hkv : k.isSimple = true ∧ v.isSimple = true := by simpa [GoExpr.isSimple] using h
    have ihk := transformType_depth t k hkv.1
    have ihv := transformType_depth t v hkv.2
    simp [transformType, CppType.depth, CppTemplate.maxArgDepth, CppType.maxDepth,
      GoExpr.depth, ihk, ihv]
  | .structType _, h => by simp [GoExpr.isSimple] at h
  | .selectorExpr _ _, h => by simp [GoExpr.isSimple] at h
  | .other _, h => by simp [GoExpr.isSimple] at h

/-- Witness of C7: `map[string][]*int` has depth 3 and maps to
`std::unordered_map` of `std::string` and `std::vector` of `std::optional` of
`int32_t`, of depth 3. -/
theorem transformType_depth_witness :
    (GoExpr.mapType (.ident "string")
        (.arrayType none (.starExpr (.ident "int")))).depth = 3 ∧
    transformType NewGoToCppTransformer
        (.mapType (.ident "string") (.arrayType none (.starExpr (.ident "int")))) =
      .mk "std::unordered_map" false false false (some (.mk "unordered_map"
        [ .mk "std::string" false false false none,
          .mk "std::vector" false false false (some (.mk "vector"
            [ .mk "std::optional" false false false (some (.mk "optional"
                [ .mk "int32_t" false false false none ])) ])) ])) ∧
    (transformType NewGoToCppTransformer
        (.mapType (.ident "string") (.arrayType none (.starExpr (.ident "int"))))).depth =
      (GoExpr.mapType (.ident "string")
        (.arrayType none (.starExpr (.ident "int")))).depth :=
  ⟨by decide, rfl,
    transformType_depth NewGoToCppTransformer
      (.mapType (.ident "string") (.arrayType none (.starExpr (.ident "int")))) rfl⟩

/-! ### The emitter appends -/

/-- The method `emit` appends to the output and keeps the indentation. -/
theorem emit_output (e : CppCodeEmitter) (s : String) :
    e.emit s = { output := e.output ++ s, indent := e.indent } := rfl

mutual
/-- `VisitType` appends the text of the type and keeps the indentation. -/
theorem VisitType_append : ∀ (T : CppType) (e : CppCodeEmitter),
    e.VisitType T =
      { output := e.output ++ (CppCodeEmitter.fresh.VisitType T).output, indent := e.indent }
  | .mk base p r c none, e => by
    cases p <;> cases r <;> cases c <;>
      simp [CppCodeEmitter.VisitType, CppCodeEmitter.emit, CppCodeEmitter.fresh,
        String.append_assoc]
  | .mk base p r c (some tmpl), e => by
    obtain ⟨txt, htxt⟩ : ∃ txt : String, ∀ e2 : CppCodeEmitter,
        e2.visitTemplateArgs tmpl = { output := e2.output ++ txt, indent := e2.indent } :=
      ⟨_, visitTemplateArgs_append tmpl⟩
    cases p <;> cases r <;> cases c <;>
      simp [CppCodeEmitter.VisitType, htxt, CppCodeEmitter.emit, CppCodeEmitter.fresh,
        String.append_assoc]
/-- The argument loop of `VisitType` appends and keeps the indentation. -/
theorem visitTemplateArgs_append : ∀ (tmpl : CppTemplate) (e : CppCodeEmitter),
    e.visitTemplateArgs tmpl =
      { output := e.output ++ (CppCodeEmitter.fresh.visitTemplateArgs tmpl).output,
        indent := e.indent }
  | .mk _ args, e => by
    obtain ⟨txt, htxt⟩ : ∃ txt : String, ∀ e2 : CppCodeEmitter,
        e2.visitArgs 0 args = { output := e2.output ++ txt, indent := e2.indent } :=
      ⟨_, fun e2 => visitArgs_append args e2 0⟩
    simp [CppCodeEmitter.visitTemplateArgs, htxt, CppCodeEmitter.emit, CppCodeEmitter.fresh,
      String.append_assoc]
/-- The iterations of the argument loop append and keep the indentation. -/
theorem visitArgs_append : ∀ (args : List CppType) (e : CppCodeEmitter) (i : Nat),
    e.visitArgs i args =
      { output := e.output ++ (CppCodeEmitter.fresh.visitArgs i args).output,
        indent := e.indent }
  | [], e, i => by simp [CppCodeEmitter.visitArgs, CppCodeEmitter.fresh]
  | arg :: rest, e, i => by
    obtain ⟨ta, hta⟩ : ∃ txt : String, ∀ e2 : CppCodeEmitter,
        e2.VisitType arg = { output := e2.output ++ txt, indent := e2.indent } :=
      ⟨_, VisitType_append arg⟩
    obtain ⟨tr, htr⟩ : ∃ txt : String, ∀ e2 : CppCodeEmitter,
        e2.visitArgs (i + 1) rest = { output := e2.output ++ txt, indent := e2.indent } :=
      ⟨_, fun e2 => visitArgs_append rest e2 (i + 1)⟩
    by_cases hi : i > 0 <;>
      simp [CppCodeEmitter.visitArgs, hi, hta, htr, CppCodeEmitter.emit, CppCodeEmitter.fresh,
        String.append_assoc]
end

/-! ### C10: the text of the accessors -/

/-- The text of the getter and of the setter built for a field whose stored type
carries no qualifier at top level, visited at indentation 1. -/
theorem accessor_text_of_plain (f b : String) (tm : Option CppTemplate) (out : String) :
    (CppCodeEmitter.VisitMethod { output := out, indent := 1 }
        (getterOf { Name := f, Typ := .mk b false false false tm })).output =
      out ++ ("    const " ++ (CppCodeEmitter.fresh.VisitType (.mk b false false false tm)).output
        ++ "& get_" ++ f ++ "() const \x7b return " ++ f ++ "; \x7d\n") ∧
    (CppCodeEmitter.VisitMethod { output := out, indent := 1 }
        (setterOf { Name := f, Typ := .mk b false false false tm })).output =
      out ++ ("    void set_" ++ f ++ "(const "
        ++ (CppCodeEmitter.fresh.VisitType (.mk b false false false tm)).output
        ++ "& val) \x7b " ++ f ++ " = val; \x7d\n") := by
  have hind : ∀ o : String, CppCodeEmitter.emitIndent { output := o, indent := 1 } =
      { output := o ++ "    ", indent := 1 } := by
    intro o
    simp [CppCodeEmitter.emitIndent, CppCodeEmitter.emit, List.range_succ]
  have e1 : ∀ x : String, "& " ++ ("get_" ++ x) = "& get_" ++ x := fun x => by
    rw [← String.append_assoc]; rfl
  have e2 : ∀ x : String, "    void " ++ ("set_" ++ x) = "    void set_" ++ x := fun x => by
    rw [← String.append_assoc]; rfl
  cases tm with
  | none =>
    constructor <;>
      simp [CppCodeEmitter.VisitMethod, getterOf, setterOf, hind, CppCodeEmitter.visitParams,
        CppCodeEmitter.visitStmt, CppCodeEmitter.VisitType, CppCodeEmitter.emit,
        CppCodeEmitter.fresh, CppType.ofBase, CppType.Base, CppType.Template,
        String.append_assoc, e1, e2]
  | some tmpl =>
    obtain ⟨txt, htxt⟩ : ∃ txt : String, ∀ e2 : CppCodeEmitter,
        e2.visitTemplateArgs tmpl = { output := e2.output ++ txt, indent := e2.indent } :=
      ⟨_, visitTemplateArgs_append tmpl⟩
    constructor <;>
      simp [CppCodeEmitter.VisitMethod, getterOf, setterOf, hind, CppCodeEmitter.visitParams,
        CppCodeEmitter.visitStmt, CppCodeEmitter.VisitType, htxt, CppCodeEmitter.emit,
        CppCodeEmitter.fresh, CppType.ofBase, CppType.Base, CppType.Template,
        String.append_assoc, e1, e2]

/-- C10. For the `i`-th field of a struct returned by `transformStruct`, with name
`f` and type `T`, and `r` the text `VisitType` emits for `T`: visited at
indentation 1, the getter (position `2i`) appends exactly
`"    const " + r + "& get_" + f + "() const { return " + f + "; }\n"` and the
setter (position `2i+1`) exactly
`"    void set_" + f + "(const " + r + "& val) { " + f + " = val; }\n"`. -/
theorem accessor_text (t : GoToCppTransformer) (name : String) (goFields : List GoField)
    (i : Nat) (fld : CppField) (out : String)
    (h : (transformStruct t name goFields).Fields[i]? = some fld) :
    ∃ getter setter : CppMethod,
      (transformStruct t name goFields).Methods[2 * i]? = some getter ∧
      (transformStruct t name goFields).Methods[2 * i + 1]? = some setter ∧
      (CppCodeEmitter.VisitMethod { output := out, indent := 1 } getter).output =
        out ++ ("    const " ++ (CppCodeEmitter.fresh.VisitType fld.Typ).output
          ++ "& get_" ++ fld.Name ++ "() const \x7b return " ++ fld.Name ++ "; \x7d\n") ∧
      (CppCodeEmitter.VisitMethod { output := out, indent := 1 } setter).output =
        out ++ ("    void set_" ++ fld.Name ++ "(const "
          ++ (CppCodeEmitter.fresh.VisitType fld.Typ).output
          ++ "& val) \x7b " ++ fld.Name ++ " = val; \x7d\n") := by
  have hmem : fld ∈ (transformStruct t name goFields).Fields := List.getElem?_mem h
  have hT := (eq_mk_of_unqualified fld.Typ
    (transformStruct_field_unqualified t name goFields fld hmem)).1
  have hidx := transformStruct_methods_at t name goFields i
  rw [h] at hidx
  have key := accessor_text_of_plain fld.Name fld.Typ.Base fld.Typ.Template out
  rw [← hT] at key
  exact ⟨getterOf fld, setterOf fld, hidx.1, hidx.2, key.1, key.2⟩

/-- Witness of C10: the field `Meta` (index 4) of `Person`, on an empty buffer. -/
theorem accessor_text_witness :
    ∃ getter setter : CppMethod,
      (transformStruct NewGoToCppTransformer "Person" personFields).Methods[8]? = some getter ∧
      (transformStruct NewGoToCppTransformer "Person" personFields).Methods[9]? = some setter ∧
      (CppCodeEmitter.VisitMethod { output := "", indent := 1 } getter).output =
        "    const std::unordered_map<std::string, int32_t>& get_Meta() const \x7b return Meta; \x7d\n" ∧
      (CppCodeEmitter.VisitMethod { output := "", indent := 1 } setter).output =
        "    void set_Meta(const std::unordered_map<std::string, int32_t>& val) \x7b Meta = val; \x7d\n" :=
  accessor_text NewGoToCppTransformer "Person" personFields 4
    { Name := "Meta"
      Typ := transformType NewGoToCppTransformer (.mapType (.ident "string") (.ident "int")) }
    "" rfl

/-! ### C9: the struct `Person` -/

/-- C9. Transforming `Person` (`ID int64`, `Name string`, `Email *string`,
`Tags []string`, `Meta map[string]int`) yields 5 fields, named as declared, whose
types `VisitType` renders as `int64_t`, `std::string`, `std::optional<std::string>`,
`std::vector<std::string>` and `std::unordered_map<std::string, int32_t>`, and
11 methods: the constructor and 10 accessors. -/
theorem person_struct :
    (transformStruct NewGoToCppTransformer "Person" personFields).Fields.length = 5 ∧
    (transformStruct NewGoToCppTransformer "Person" personFields).Fields.map CppField.Name =
      ["ID", "Name", "Email", "Tags", "Meta"] ∧
    (transformStruct NewGoToCppTransformer "Person" personFields).Fields.map
        (fun f => (CppCodeEmitter.fresh.VisitType f.Typ).output) =
      ["int64_t", "std::string", "std::optional<std::string>", "std::vector<std::string>",
        "std::unordered_map<std::string, int32_t>"] ∧
    (transformStruct NewGoToCppTransformer "Person" personFields).Constructor.isSome = true ∧
    (transformStruct NewGoToCppTransformer "Person" personFields).Methods.length = 10 ∧
    ((transformStruct NewGoToCppTransformer "Person" personFields).Constructor.toList ++
      (transformStruct NewGoToCppTransformer "Person" personFields).Methods).length = 11 ∧
    (transformStruct NewGoToCppTransformer "Person" personFields).Methods.map CppMethod.Name =
      ["get_ID", "set_ID", "get_Name", "set_Name", "get_Email", "set_Email",
        "get_Tags", "set_Tags", "get_Meta", "set_Meta"] :=
  ⟨rfl, rfl, rfl, rfl, rfl, rfl, rfl⟩

/-! ### C6: anonymous nested structs -/

/-- C6, as stated, fails on `type Outer struct { Inner struct { X int } }`: after
`ParseGoSource` the struct list holds the one struct `Outer`, its field `Inner`
has the type `unknown`, and no struct of the list is named by that type or has
the field `X` of the nested definition. -/
theorem nested_struct_not_hoisted :
    (ParseGoSource parseKnown NewGoToCppTransformer nestedSource).2 = none ∧
    (ParseGoSource parseKnown NewGoToCppTransformer nestedSource).1.unit.Structs.map
        CppStruct.Name = ["Outer"] ∧
    (ParseGoSource parseKnown NewGoToCppTransformer nestedSource).1.unit.Structs.map
        (fun s => s.Fields.map (fun f => (f.Name, f.Typ.Base, f.Typ.Template.isSome))) =
      [[("Inner", "unknown", false)]] ∧
    ¬ ∃ s ∈ (ParseGoSource parseKnown NewGoToCppTransformer nestedSource).1.unit.Structs,
        s.Name = "unknown" ∨ s.Fields.map CppField.Name = ["X"] := by
  have h : parseKnown nestedSource = .ok nestedFile := rfl
  refine ⟨?_, ?_, ?_, ?_⟩
  · simp only [ParseGoSource, h]
  · simp only [ParseGoSource, h]; rfl
  · simp only [ParseGoSource, h]; rfl
  · simp only [ParseGoSource, h]
    have hs : (List.foldl inspectDecl NewGoToCppTransformer nestedFile.Decls).unit.Structs =
        [transformStruct NewGoToCppTransformer "Outer" outerFields] := rfl
    rw [hs]
    simp only [List.mem_singleton, exists_eq_left]
    decide

/-- C6, amended. A field whose Go type is an anonymous nested struct gets the plain
type `unknown`, and nothing is registered for the nested definition: parsing a
file whose only declaration is `type name struct { fields }` appends the one
struct `transformStruct name fields` and returns no error, and every name of a
field of `fields` with a struct type is a field of type `unknown` in it. -/
theorem nested_struct_unknown (parseFile : String → Except String GoFile)
    (t : GoToCppTransformer) (src name : String) (fields : List GoField)
    (h : parseFile src = .ok { Decls := [.genDecl [.typeSpec name (.structType fields)]] }) :
    (∀ nested : List GoField, transformType t (.structType nested) = CppType.ofBase "unknown") ∧
    (ParseGoSource parseFile t src).2 = none ∧
    (ParseGoSource parseFile t src).1.unit.Includes = t.unit.Includes ∧
    (ParseGoSource parseFile t src).1.unit.Structs =
      t.unit.Structs ++ [transformStruct t name fields] ∧
    ∀ gf ∈ fields, ∀ nested : List GoField, gf.Typ = .structType nested →
      ∀ n ∈ gf.Names,
        ({ Name := n, Typ := CppType.ofBase "unknown" } : CppField) ∈
          (transformStruct t name fields).Fields := by
  refine ⟨fun nested => by simp [transformType], ?_, ?_, ?_, ?_⟩
  · simp [ParseGoSource, h]
  · simp [ParseGoSource, h, inspectDecl, inspectSpecs, inspectSpec]
  · simp [ParseGoSource, h, inspectDecl, inspectSpecs, inspectSpec]
  · intro gf hgf nested hty n hn
    simp only [transformStruct, transformFields_eq, List.nil_append, List.mem_flatMap,
      List.mem_map]
    exact ⟨gf, hgf, n, hn, by simp [hty, transformType]⟩

/-- Witness of the amended C6 at `nestedSource`. -/
theorem nested_struct_unknown_witness :
    (ParseGoSource parseKnown NewGoToCppTransformer nestedSource).1.unit.Structs =
      [] ++ [transformStruct NewGoToCppTransformer "Outer" outerFields] :=
  (nested_struct_unknown parseKnown NewGoToCppTransformer nestedSource "Outer" outerFields
    rfl).2.2.2.1

/-! ### Every visitor appends a text and keeps the indentation -/

/-- Concatenation distributes over list append. -/
theorem concatTexts_append (l1 l2 : List String) :
    concatTexts (l1 ++ l2) = concatTexts l1 ++ concatTexts l2 := by
  induction l1 with
  | nil => simp [concatTexts]
  | cons a rest ih => simp [concatTexts, ih, String.append_assoc]

/-- A loop whose body appends a text that depends on the element and the
indentation only appends the concatenation of those texts. -/
theorem foldl_appends {α : Type} (f : CppCodeEmitter → α → CppCodeEmitter) (g : Int → α → String)
    (hf : ∀ e x, f e x = { output := e.output ++ g e.indent x, indent := e.indent })
    (l : List α) : ∀ e : CppCodeEmitter,
    l.foldl f e = { output := e.output ++ concatTexts (l.map (g e.indent)), indent := e.indent } := by
  induction l with
  | nil => intro e; simp [concatTexts]
  | cons a rest ih =>
    intro e
    rw [List.foldl_cons, ih, hf]
    simp [concatTexts, String.append_assoc]

/-- The method `emitIndent` appends `indentText` of the indentation. -/
theorem emitIndent_append (e : CppCodeEmitter) :
    e.emitIndent = { output := e.output ++ indentText e.indent, indent := e.indent } := by
  have h : ∀ (l : List Nat) (e : CppCodeEmitter),
      l.foldl (fun e _ => e.emit "    ") e =
        { output := e.output ++ concatTexts (List.replicate l.length "    "),
          indent := e.indent } := by
    intro l
    induction l with
    | nil => intro e; simp [concatTexts]
    | cons a rest ih =>
      intro e
      rw [List.foldl_cons, ih]
      simp [CppCodeEmitter.emit, List.replicate_succ, concatTexts, String.append_assoc]
  simp [CppCodeEmitter.emitIndent, h, indentText]

/-- The method `VisitType` appends `typeText` of the type. -/
theorem VisitType_typeText (e : CppCodeEmitter) (T : CppType) :
    e.VisitType T = { output := e.output ++ typeText T, indent := e.indent } :=
  VisitType_append T e

/-- The body loop of `VisitMethod` appends `stmtText` of the statement. -/
theorem visitStmt_append (e : CppCodeEmitter) (s : CppStmt) :
    e.visitStmt s = { output := e.output ++ stmtText s, indent := e.indent } := by
  cases s with
  | CppReturn expr =>
    cases expr <;>
      simp [CppCodeEmitter.visitStmt, stmtText, CppCodeEmitter.emit, CppCodeEmitter.fresh,
        String.append_assoc]
  | CppAssign lhs rhs =>
    cases lhs <;> cases rhs <;>
      simp [CppCodeEmitter.visitStmt, stmtText, CppCodeEmitter.emit, CppCodeEmitter.fresh,
        String.append_assoc]

/-- The parameter loop of `VisitMethod` from an index above 0 on: every parameter
is preceded by the separator. -/
theorem visitParams_succ (ps : List CppParam) : ∀ (e : CppCodeEmitter) (i : Nat),
    e.visitParams (i + 1) ps =
      { output := e.output ++
          concatTexts (ps.map (fun p => ", " ++ (typeText p.Typ ++ " " ++ p.Name))),
        indent := e.indent } := by
  induction ps with
  | nil => intro e i; simp [CppCodeEmitter.visitParams, concatTexts]
  | cons p rest ih =>
    intro e i
    simp [CppCodeEmitter.visitParams, ih, VisitType_typeText, CppCodeEmitter.emit, concatTexts,
      String.append_assoc]

/-- The iterations of `String.intercalate` append every further text after a separator. -/
theorem intercalate_go (sep : String) (l : List String) : ∀ acc : String,
    String.intercalate.go acc sep l = acc ++ concatTexts (l.map (fun s => sep ++ s)) := by
  induction l with
  | nil => intro acc; simp [String.intercalate.go, concatTexts]
  | cons a rest ih =>
    intro acc
    simp [String.intercalate.go, ih, concatTexts, String.append_assoc]

/-- The parameter loop of `VisitMethod` appends the parameters joined by `", "`. -/
theorem visitParams_zero (ps : List CppParam) (e : CppCodeEmitter) :
    e.visitParams 0 ps =
      { output := e.output ++
          ", ".intercalate (ps.map (fun p => typeText p.Typ ++ " " ++ p.Name)),
        indent := e.indent } := by
  cases ps with
  | nil => simp [CppCodeEmitter.visitParams, String.intercalate]
  | cons p rest =>
    simp [CppCodeEmitter.visitParams, visitParams_succ, VisitType_typeText, CppCodeEmitter.emit,
      String.intercalate, intercalate_go, String.append_assoc, List.map_map, Function.comp_def]

/-- The argument loop of `VisitType` from an index above 0 on. -/
theorem visitArgs_succ (args : List CppType) : ∀ (e : CppCodeEmitter) (i : Nat),
    e.visitArgs (i + 1) args =
      { output := e.output ++ concatTexts (args.map (fun a => ", " ++ typeText a)),
        indent := e.indent } := by
  induction args with
  | nil => intro e i; simp [CppCodeEmitter.visitArgs, concatTexts]
  | cons a rest ih =>
    intro e i
    simp [CppCodeEmitter.visitArgs, ih, VisitType_typeText, CppCodeEmitter.emit, concatTexts,
      String.append_assoc]

/-- The argument loop of `VisitType` appends the arguments joined by `", "`. -/
theorem visitArgs_zero (args : List CppType) (e : CppCodeEmitter) :
    e.visitArgs 0 args =
      { output := e.output ++ ", ".intercalate (args.map typeText), indent := e.indent } := by
  cases args with
  | nil => simp [CppCodeEmitter.visitArgs, String.intercalate]
  | cons a rest =>
    simp [CppCodeEmitter.visitArgs, visitArgs_succ, VisitType_typeText, String.intercalate,
      intercalate_go, String.append_assoc, List.map_map, Function.comp_def]

/-- The rule of `VisitType`: `const ` if is-const is set, the base, the template
arguments between `<` and `>` joined by `", "` if there is a template, `&` if
is-reference is set, `*` if is-pointer is set. -/
theorem typeText_mk (base : String) (isPointer isRef isConst : Bool)
    (template : Option CppTemplate) :
    typeText (.mk base isPointer isRef isConst template) =
      (if isConst then "const " else "") ++ base ++
        (match template with
         | some tmpl => "<" ++ ", ".intercalate (tmpl.Args.map typeText) ++ ">"
         | none => "") ++
        (if isRef then "&" else "") ++ (if isPointer then "*" else "") := by
  cases template with
  | none =>
    cases isPointer <;> cases isRef <;> cases isConst <;>
      simp [typeText, CppCodeEmitter.VisitType, CppCodeEmitter.emit, CppCodeEmitter.fresh,
        String.append_assoc]
  | some tmpl =>
    cases tmpl with
    | mk n args =>
      cases isPointer <;> cases isRef <;> cases isConst <;>
        simp [typeText, CppCodeEmitter.VisitType, CppCodeEmitter.visitTemplateArgs,
          visitArgs_zero, CppTemplate.Args, CppCodeEmitter.emit, CppCodeEmitter.fresh,
          String.append_assoc]

/-- The form of the text of `VisitMethod`. -/
theorem VisitMethod_form (e : CppCodeEmitter) (m : CppMethod) :
    e.VisitMethod m =
      { output := e.output ++
          (indentText e.indent ++
            (match m.ReturnType with
             | some rt => typeText rt ++ " "
             | none => "") ++
            m.Name ++ "(" ++
            ", ".intercalate (m.Params.map (fun p => typeText p.Typ ++ " " ++ p.Name)) ++ ")" ++
            (if m.IsConst then " const" else "") ++ " \x7b " ++
            concatTexts (m.Body.map stmtText) ++ " \x7d\n"),
        indent := e.indent } := by
  have hbody := foldl_appends CppCodeEmitter.visitStmt (fun _ s => stmtText s)
    (fun e s => visitStmt_append e s) m.Body
  cases hr : m.ReturnType <;> cases hc : m.IsConst <;>
    simp [CppCodeEmitter.VisitMethod, hr, hc, emitIndent_append, VisitType_typeText,
      visitParams_zero, hbody, CppCodeEmitter.emit, String.append_assoc]

/-- The method `VisitMethod` appends `methodText` and keeps the indentation. -/
theorem VisitMethod_append (e : CppCodeEmitter) (m : CppMethod) :
    e.VisitMethod m = { output := e.output ++ methodText e.indent m, indent := e.indent } := by
  rw [VisitMethod_form e m, methodText, VisitMethod_form { output := "", indent := e.indent } m]
  simp

/-- The form of the text of `VisitField`. -/
theorem VisitField_form (e : CppCodeEmitter) (f : CppField) :
    e.VisitField f =
      { output := e.output ++ (indentText e.indent ++ typeText f.Typ ++ " " ++ f.Name ++ ";\n"),
        indent := e.indent } := by
  simp [CppCodeEmitter.VisitField, emitIndent_append, VisitType_typeText, CppCodeEmitter.emit,
    String.append_assoc]

/-- The method `VisitField` appends `fieldText` and keeps the indentation. -/
theorem VisitField_append (e : CppCodeEmitter) (f : CppField) :
    e.VisitField f = { output := e.output ++ fieldText e.indent f, indent := e.indent } := by
  rw [VisitField_form e f, fieldText, VisitField_form { output := "", indent := e.indent } f]
  simp

/-- The form of the text of `VisitStruct`. -/
theorem VisitStruct_form (e : CppCodeEmitter) (s : CppStruct) :
    e.VisitStruct s =
      { output := e.output ++
          ("struct " ++ s.Name ++ " \x7b\n" ++
            concatTexts (s.Fields.map (fieldText (e.indent + 1))) ++ "\n" ++
            (match s.Constructor with
             | some _ => indentText (e.indent + 1) ++ s.Name ++ "() = default;\n\n"
             | none => "") ++
            concatTexts (s.Methods.map (methodText (e.indent + 1))) ++ "\x7d;\n\n"),
        indent := e.indent } := by
  have hf := foldl_appends CppCodeEmitter.VisitField fieldText VisitField_append s.Fields
  have hm := foldl_appends CppCodeEmitter.VisitMethod methodText VisitMethod_append s.Methods
  cases hc : s.Constructor <;>
    simp [CppCodeEmitter.VisitStruct, hc, hf, hm, emitIndent_append, CppCodeEmitter.emit,
      String.append_assoc]

/-- The method `VisitStruct` appends `structText` and keeps the indentation. -/
theorem VisitStruct_append (e : CppCodeEmitter) (s : CppStruct) :
    e.VisitStruct s = { output := e.output ++ structText e.indent s, indent := e.indent } := by
  rw [VisitStruct_form e s, structText, VisitStruct_form { output := "", indent := e.indent } s]
  simp

/-- One iteration of the include loop appends the include line of the entry. -/
theorem visitInclude_append (e : CppCodeEmitter) (inc : CppInclude) :
    e.visitInclude inc = { output := e.output ++ includeLine inc, indent := e.indent } := by
  cases hs : inc.IsSystem <;>
    simp [CppCodeEmitter.visitInclude, includeLine, hs, CppCodeEmitter.emit, String.append_assoc]

/-- The form of the text of `VisitTranslationUnit`. -/
theorem VisitTranslationUnit_form (e : CppCodeEmitter) (u : CppTranslationUnit) :
    e.VisitTranslationUnit u =
      { output := e.output ++
          ("#pragma once\n\n" ++ concatTexts (u.Includes.map includeLine) ++ "\n" ++
            concatTexts (u.Structs.map (structText e.indent))),
        indent := e.indent } := by
  have hi := foldl_appends CppCodeEmitter.visitInclude (fun _ inc => includeLine inc)
    (fun e inc => visitInclude_append e inc) u.Includes
  have hs := foldl_appends CppCodeEmitter.VisitStruct structText VisitStruct_append u.Structs
  simp [CppCodeEmitter.VisitTranslationUnit, hi, hs, CppCodeEmitter.emit, String.append_assoc]

/-- The method `VisitTranslationUnit` appends `unitText` and keeps the indentation. -/
theorem VisitTranslationUnit_append (e : CppCodeEmitter) (u : CppTranslationUnit) :
    e.VisitTranslationUnit u =
      { output := e.output ++ unitText e.indent u, indent := e.indent } := by
  rw [VisitTranslationUnit_form e u, unitText,
    VisitTranslationUnit_form { output := "", indent := e.indent } u]
  simp

/-! ### C11: the text of a type -/

/-- C11. For every type, `VisitType` appends `const ` if is-const is set, then the
base name, then, if the type has a template, `<`, the texts of the template
arguments (each by this same rule) joined by `", "` and `>`, then `&` if
is-reference is set, then `*` if is-pointer is set; with both set, `&` stands
before `*`. The indentation is unchanged. -/
theorem VisitType_text (e : CppCodeEmitter) (base : String) (isPointer isRef isConst : Bool)
    (template : Option CppTemplate) :
    (e.VisitType (.mk base isPointer isRef isConst template)).output =
      e.output ++
        ((if isConst then "const " else "") ++ base ++
          (match template with
           | some tmpl => "<" ++ ", ".intercalate (tmpl.Args.map typeText) ++ ">"
           | none => "") ++
          (if isRef then "&" else "") ++ (if isPointer then "*" else "")) ∧
    (e.VisitType (.mk base isPointer isRef isConst template)).indent = e.indent ∧
    (∀ T : CppType, typeText T = (CppCodeEmitter.VisitType { output := "", indent := 0 } T).output) ∧
    typeText (.mk base true true false none) = base ++ "&*" := by
  refine ⟨?_, ?_, fun T => rfl, ?_⟩
  · rw [VisitType_typeText, typeText_mk]
  · rw [VisitType_typeText]
  · rw [typeText_mk]; simp [String.append_assoc]

/-! ### C12: the text of a struct -/

/-- C12. For a struct with a constructor, visited at indentation 0, `VisitStruct`
appends exactly `struct ` + name + ` {` and a newline, for each field in order
the line of four spaces, the text of the type, a space, the field name and `;`,
one blank line, four spaces + name + `() = default;` and a blank line, the text
of each method in list order at indentation 1, and `};` with a blank line. -/
theorem VisitStruct_text (out : String) (s : CppStruct) (h : s.Constructor.isSome = true) :
    (CppCodeEmitter.VisitStruct { output := out, indent := 0 } s).output =
      out ++
        ("struct " ++ s.Name ++ " \x7b\n" ++
          concatTexts (s.Fields.map (fun f => "    " ++ typeText f.Typ ++ " " ++ f.Name ++ ";\n")) ++
          "\n" ++
          "    " ++ s.Name ++ "() = default;\n\n" ++
          concatTexts (s.Methods.map (methodText 1)) ++
          "\x7d;\n\n") ∧
    (CppCodeEmitter.VisitStruct { output := out, indent := 0 } s).indent = 0 := by
  have hind : indentText (0 + 1) = "    " := by decide
  have hfield : fieldText (0 + 1) = fun f => "    " ++ typeText f.Typ ++ " " ++ f.Name ++ ";\n" := by
    funext f
    have := VisitField_form { output := "", indent := 0 + 1 } f
    simp only [fieldText, this, hind]
    simp
  obtain ⟨c, hc⟩ := Option.isSome_iff_exists.mp h
  have e3 : ∀ x : String, "\n" ++ ("    " ++ x) = "\n    " ++ x := fun x => by
    rw [← String.append_assoc]; rfl
  rw [VisitStruct_form]
  simp only [hc, hind, hfield]
  simp [String.append_assoc, e3]

/-- Witness of C12: a struct `Point` with the field `x` of type `int32_t` and its getter. -/
theorem VisitStruct_text_witness :
    (CppCodeEmitter.VisitStruct { output := "", indent := 0 }
        (transformStruct NewGoToCppTransformer "Point" [.mk ["x"] (.ident "int")])).output =
      "struct Point \x7b\n    int32_t x;\n\n    Point() = default;\n\n    const int32_t& get_x() const \x7b return x; \x7d\n    void set_x(const int32_t& val) \x7b x = val; \x7d\n\x7d;\n\n" :=
  (VisitStruct_text "" (transformStruct NewGoToCppTransformer "Point" [.mk ["x"] (.ident "int")])
    rfl).1

/-! ### C14, C15, C16: the text of a translation unit -/

/-- C14. The include loop of `VisitTranslationUnit` appends one include line per
entry of the include list, in list order and without deduplication (an entry
repeated `k` times gives `k` equal lines): `#include <path>` for a system entry,
`#include "path"` for a local one. For the fixed include list of the
transformer and no struct, the text is the non-empty preamble alone. -/
theorem include_lines (e : CppCodeEmitter) (u : CppTranslationUnit) :
    u.Includes.foldl CppCodeEmitter.visitInclude e =
      { output := e.output ++ concatTexts (u.Includes.map includeLine), indent := e.indent } ∧
    (e.VisitTranslationUnit u).output =
      e.output ++ ("#pragma once\n\n" ++ concatTexts (u.Includes.map includeLine) ++ "\n" ++
        concatTexts (u.Structs.map (structText e.indent))) ∧
    (u.Includes.map includeLine).length = u.Includes.length ∧
    (∀ path : String, includeLine { Path := path, IsSystem := true } = "#include <" ++ path ++ ">\n") ∧
    (∀ path : String,
      includeLine { Path := path, IsSystem := false } = "#include \"" ++ path ++ "\"\n") ∧
    (∀ (inc : CppInclude) (k : Nat),
      (List.replicate k inc).map includeLine = List.replicate k (includeLine inc)) ∧
    (CppCodeEmitter.fresh.VisitTranslationUnit NewGoToCppTransformer.unit).output =
      "#pragma once\n\n#include <string>\n#include <vector>\n#include <unordered_map>\n#include <optional>\n#include <cstdint>\n\n" ∧
    (CppCodeEmitter.fresh.VisitTranslationUnit NewGoToCppTransformer.unit).output ≠ "" := by
  have hi := foldl_appends CppCodeEmitter.visitInclude (fun _ inc => includeLine inc)
    (fun e inc => visitInclude_append e inc) u.Includes
  have hfix : (CppCodeEmitter.fresh.VisitTranslationUnit NewGoToCppTransformer.unit).output =
      "#pragma once\n\n#include <string>\n#include <vector>\n#include <unordered_map>\n#include <optional>\n#include <cstdint>\n\n" := rfl
  refine ⟨hi e, ?_, by simp, fun _ => rfl, fun _ => rfl, fun inc k => by simp, hfix, ?_⟩
  · rw [VisitTranslationUnit_form]
  · rw [hfix]; decide

/-- C15 as stated fails: for the unit with the one include `<string>` and no
struct, the text is not the include block followed by a blank line; it starts
with `#pragma once` and a blank line. -/
theorem unit_text_has_pragma :
    (CppCodeEmitter.fresh.VisitTranslationUnit
        { Includes := [{ Path := "string", IsSystem := true }], Structs := [] }).output ≠
      concatTexts ([({ Path := "string", IsSystem := true } : CppInclude)].map includeLine) ++ "\n" ++
        concatTexts (([] : List CppStruct).map (structText 0)) ∧
    (CppCodeEmitter.fresh.VisitTranslationUnit
        { Includes := [{ Path := "string", IsSystem := true }], Structs := [] }).output =
      "#pragma once\n\n#include <string>\n\n" := by
  have h : (CppCodeEmitter.fresh.VisitTranslationUnit
        { Includes := [{ Path := "string", IsSystem := true }], Structs := [] }).output =
      "#pragma once\n\n#include <string>\n\n" := rfl
  refine ⟨?_, h⟩
  rw [h]
  decide

/-- C15, amended. The text a fresh emitter produces for a translation unit is
exactly the line `#pragma once` and a blank line, the include block (one
include line per entry), one blank line, and the texts of the structs of the
unit in order, and nothing else. -/
theorem unit_text (u : CppTranslationUnit) :
    (CppCodeEmitter.fresh.VisitTranslationUnit u).output =
      "#pragma once\n\n" ++ concatTexts (u.Includes.map includeLine) ++ "\n" ++
        concatTexts (u.Structs.map (structText 0)) := by
  rw [VisitTranslationUnit_form]
  simp [CppCodeEmitter.fresh]

/-- C16. Structs are emitted in the order of the struct list and the text of a
struct does not depend on its position: the text for the structs `A ++ B` is the
text for the structs `A` followed by the texts `VisitStruct` produces at
indentation 0 for the structs of `B`, in order. -/
theorem unit_text_append (includes : List CppInclude) (A B : List CppStruct) :
    (CppCodeEmitter.fresh.VisitTranslationUnit { Includes := includes, Structs := A ++ B }).output =
      (CppCodeEmitter.fresh.VisitTranslationUnit { Includes := includes, Structs := A }).output ++
        concatTexts (B.map (fun s =>
          (CppCodeEmitter.VisitStruct { output := "", indent := 0 } s).output)) := by
  rw [VisitTranslationUnit_form, VisitTranslationUnit_form]
  simp only [List.map_append, concatTexts_append, CppCodeEmitter.fresh]
  have : (fun s => (CppCodeEmitter.VisitStruct { output := "", indent := 0 } s).output)
      = structText 0 := rfl
  rw [this]
  simp [String.append_assoc]

/-! ### C20: the visitors append and keep the indentation -/

/-- C20. For every node and every emitter state, each visitor operation leaves the
indentation as it was and leaves the previous buffer followed by a text that is
a function of the node and of the indentation at entry (`typeText`,
`methodText`, `fieldText`, `structText`, `unitText`); so visiting a unit twice
with one emitter appends the same text twice, and every fresh emitter produces
the same text. -/
theorem visitors_append (e : CppCodeEmitter) :
    (∀ T : CppType, e.VisitType T = { output := e.output ++ typeText T, indent := e.indent }) ∧
    (∀ m : CppMethod,
      e.VisitMethod m = { output := e.output ++ methodText e.indent m, indent := e.indent }) ∧
    (∀ f : CppField,
      e.VisitField f = { output := e.output ++ fieldText e.indent f, indent := e.indent }) ∧
    (∀ s : CppStruct,
      e.VisitStruct s = { output := e.output ++ structText e.indent s, indent := e.indent }) ∧
    (∀ u : CppTranslationUnit,
      e.VisitTranslationUnit u =
        { output := e.output ++ unitText e.indent u, indent := e.indent }) ∧
    (∀ u : CppTranslationUnit,
      ((e.VisitTranslationUnit u).VisitTranslationUnit u).output =
        e.output ++ unitText e.indent u ++ unitText e.indent u) ∧
    (∀ u : CppTranslationUnit,
      (CppCodeEmitter.fresh.VisitTranslationUnit u).output = unitText 0 u ∧
      (CppCodeEmitter.VisitTranslationUnit { output := "", indent := 0 } u).GetOutput =
        (CppCodeEmitter.fresh.VisitTranslationUnit u).GetOutput) := by
  refine ⟨VisitType_typeText e, VisitMethod_append e, VisitField_append e, VisitStruct_append e,
    VisitTranslationUnit_append e, ?_, fun u => ⟨rfl, rfl⟩⟩
  intro u
  rw [VisitTranslationUnit_append, VisitTranslationUnit_append]

/-! ### C13: a method is one line -/

/-- Newlines of a concatenation. -/
theorem newlines_append (a b : String) : newlines (a ++ b) = newlines a + newlines b := by
  simp [newlines, String.data_append, List.count_append]

/-- A concatenation of texts without newline has no newline. -/
theorem newlines_concatTexts (l : List String) (h : ∀ s ∈ l, newlines s = 0) :
    newlines (concatTexts l) = 0 := by
  induction l with
  | nil => rfl
  | cons a rest ih =>
    simp only [concatTexts, newlines_append]
    rw [h a (List.mem_cons_self _ _), ih (fun s hs => h s (List.mem_cons_of_mem _ hs))]

/-- Texts without newline joined by `", "` have no newline. -/
theorem newlines_intercalate (l : List String) (h : ∀ s ∈ l, newlines s = 0) :
    newlines (", ".intercalate l) = 0 := by
  cases l with
  | nil => rfl
  | cons a rest =>
    simp only [String.intercalate, intercalate_go, newlines_append]
    rw [h a (List.mem_cons_self _ _), newlines_concatTexts]
    intro s hs
    obtain ⟨x, hx, rfl⟩ := List.mem_map.mp hs
    rw [newlines_append, h x (List.mem_cons_of_mem _ hx)]
    rfl

/-- The indentation has no newline. -/
theorem newlines_indentText (indent : Int) : newlines (indentText indent) = 0 := by
  apply newlines_concatTexts
  intro s hs
  rw [List.eq_of_mem_replicate hs]
  rfl

mutual
/-- The text of a type whose base names have no newline has no newline. -/
theorem newlines_typeText : ∀ T : CppType, T.noNewline = true → newlines (typeText T) = 0
  | .mk base p r c none, h => by
    have hb : newlines base = 0 := by simpa [CppType.noNewline] using h
    rw [typeText_mk]
    cases p <;> cases r <;> cases c <;> simp [newlines_append, hb] <;> decide
  | .mk base p r c (some tmpl), h => by
    have hb : newlines base = 0 ∧ tmpl.noNewline = true := by
      simpa [CppType.noNewline] using h
    have ht := newlines_templateArgs tmpl hb.2
    rw [typeText_mk]
    cases p <;> cases r <;> cases c <;> simp [newlines_append, hb.1, ht] <;> decide
/-- The joined argument texts of a template have no newline. -/
theorem newlines_templateArgs : ∀ tmpl : CppTemplate, tmpl.noNewline = true →
    newlines (", ".intercalate (tmpl.Args.map typeText)) = 0
  | .mk _ args, h => by
    apply newlines_intercalate
    intro s hs
    obtain ⟨a, ha, rfl⟩ := List.mem_map.mp hs
    exact newlines_typeTexts args (by simpa [CppTemplate.noNewline] using h) a ha
/-- The texts of the types of a list have no newline. -/
theorem newlines_typeTexts : ∀ args : List CppType, CppType.noNewlineAll args = true →
    ∀ a ∈ args, newlines (typeText a) = 0
  | [], _ => by intro a ha; simp at ha
  | x :: rest, h => by
    have hx : x.noNewline = true ∧ CppType.noNewlineAll rest = true := by
      simpa [CppType.noNewlineAll] using h
    intro a ha
    rcases List.mem_cons.mp ha with rfl | hr
    · exact newlines_typeText a hx.1
    · exact newlines_typeTexts rest hx.2 a hr
end

/-- The text of a `Return` or `Assign` statement ends in `;`, and has no newline
when its identifiers have none. -/
theorem stmtText_ends (s : CppStmt) :
    ∃ pre : String, stmtText s = pre ++ ";" ∧ (s.noNewline = true → newlines (stmtText s) = 0) := by
  cases s with
  | CppReturn expr =>
    cases expr with
    | CppIdent name =>
      refine ⟨"return " ++ name, ?_, ?_⟩
      · simp [stmtText, CppCodeEmitter.visitStmt, CppCodeEmitter.emit, CppCodeEmitter.fresh]
      · intro h
        have hn : newlines name = 0 := by simpa [CppStmt.noNewline, CppExpr.noNewline] using h
        have e : stmtText (.CppReturn (.CppIdent name)) = "return " ++ name ++ ";" := by
          simp [stmtText, CppCodeEmitter.visitStmt, CppCodeEmitter.emit, CppCodeEmitter.fresh]
        rw [e, newlines_append, newlines_append, hn]
        rfl
    | CppMemberAccess o m => exact ⟨"return ", rfl, fun _ => rfl⟩
  | CppAssign lhs rhs =>
    cases lhs with
    | CppIdent l =>
      cases rhs with
      | CppIdent r =>
        refine ⟨l ++ " = " ++ r, ?_, ?_⟩
        · simp [stmtText, CppCodeEmitter.visitStmt, CppCodeEmitter.emit, CppCodeEmitter.fresh]
        · intro h
          have hn : newlines l = 0 ∧ newlines r = 0 := by
            simpa [CppStmt.noNewline, CppExpr.noNewline] using h
          have e : stmtText (.CppAssign (.CppIdent l) (.CppIdent r)) = l ++ " = " ++ r ++ ";" := by
            simp [stmtText, CppCodeEmitter.visitStmt, CppCodeEmitter.emit, CppCodeEmitter.fresh]
          rw [e, newlines_append, newlines_append, newlines_append, hn.1, hn.2]
          rfl
      | CppMemberAccess o m =>
        refine ⟨l ++ " = ", ?_, ?_⟩
        · simp [stmtText, CppCodeEmitter.visitStmt, CppCodeEmitter.emit, CppCodeEmitter.fresh,
            String.append_assoc]
        · intro h
          have hn : newlines l = 0 := by simpa [CppStmt.noNewline, CppExpr.noNewline] using h
          have e : stmtText (.CppAssign (.CppIdent l) (.CppMemberAccess o m)) = l ++ " = ;" := by
            simp [stmtText, CppCodeEmitter.visitStmt, CppCodeEmitter.emit, CppCodeEmitter.fresh,
              String.append_assoc]
          rw [e, newlines_append, hn]
          rfl
    | CppMemberAccess o m =>
      cases rhs with
      | CppIdent r =>
        refine ⟨" = " ++ r, ?_, ?_⟩
        · simp [stmtText, CppCodeEmitter.visitStmt, CppCodeEmitter.emit, CppCodeEmitter.fresh]
        · intro h
          have hn : newlines r = 0 := by simpa [CppStmt.noNewline, CppExpr.noNewline] using h
          have e : stmtText (.CppAssign (.CppMemberAccess o m) (.CppIdent r)) = " = " ++ r ++ ";" := by
            simp [stmtText, CppCodeEmitter.visitStmt, CppCodeEmitter.emit, CppCodeEmitter.fresh]
          rw [e, newlines_append, newlines_append, hn]
          rfl
      | CppMemberAccess o2 m2 => exact ⟨" = ", rfl, fun _ => rfl⟩

/-- C13. For a method whose name, type base names, parameter names and body
identifiers contain no newline, the text `VisitMethod` appends is the
indentation, the return type and a space (nothing when the return type is
absent), the name, `(`, the parameters as `type name` pairs joined by `", "`,
`)`, ` const` when the method is const-qualified, ` { `, the body statements and
` }` with a newline; it contains exactly one newline, its last character, and
the text of every statement ends in `;`. -/
theorem VisitMethod_single_line (e : CppCodeEmitter) (m : CppMethod)
    (h : m.noNewline = true) :
    (e.VisitMethod m).output = e.output ++ methodText e.indent m ∧
    methodText e.indent m =
      indentText e.indent ++
        (match m.ReturnType with
         | some rt => typeText rt ++ " "
         | none => "") ++
        m.Name ++ "(" ++
        ", ".intercalate (m.Params.map (fun p => typeText p.Typ ++ " " ++ p.Name)) ++ ")" ++
        (if m.IsConst then " const" else "") ++ " \x7b " ++
        concatTexts (m.Body.map stmtText) ++ " \x7d\n" ∧
    newlines (methodText e.indent m) = 1 ∧
    (methodText e.indent m).data.getLast? = some '\n' ∧
    ∀ s ∈ m.Body, ∃ pre : String, stmtText s = pre ++ ";" := by
  have hform : methodText e.indent m =
      indentText e.indent ++
        (match m.ReturnType with
         | some rt => typeText rt ++ " "
         | none => "") ++
        m.Name ++ "(" ++
        ", ".intercalate (m.Params.map (fun p => typeText p.Typ ++ " " ++ p.Name)) ++ ")" ++
        (if m.IsConst then " const" else "") ++ " \x7b " ++
        concatTexts (m.Body.map stmtText) ++ " \x7d\n" := by
    rw [methodText, VisitMethod_form]
    simp
  simp only [CppMethod.noNewline, Bool.and_eq_true, beq_iff_eq, List.all_eq_true] at h
  obtain ⟨⟨⟨hname, hrt⟩, hparams⟩, hbody⟩ := h
  have h1 : newlines (match m.ReturnType with
      | some rt => typeText rt ++ " "
      | none => "") = 0 := by
    cases hr : m.ReturnType with
    | none => rfl
    | some rt =>
      rw [hr] at hrt
      simp only [newlines_append, newlines_typeText rt hrt]
      rfl
  have h2 : newlines (", ".intercalate (m.Params.map (fun p => typeText p.Typ ++ " " ++ p.Name)))
      = 0 := by
    apply newlines_intercalate
    intro s hs
    obtain ⟨p, hp, rfl⟩ := List.mem_map.mp hs
    have := hparams p hp
    rw [newlines_append, newlines_append, newlines_typeText p.Typ this.2, this.1]
    rfl
  have h3 : newlines (concatTexts (m.Body.map stmtText)) = 0 := by
    apply newlines_concatTexts
    intro s hs
    obtain ⟨st, hst, rfl⟩ := List.mem_map.mp hs
    obtain ⟨_, _, hnl⟩ := stmtText_ends st
    exact hnl (hbody st hst)
  have h4 : newlines (if m.IsConst then " const" else "") = 0 := by
    cases m.IsConst <;> rfl
  refine ⟨by rw [VisitMethod_append], hform, ?_, ?_, ?_⟩
  · rw [hform]
    simp only [newlines_append, newlines_indentText, h1, hname, h2, h3, h4]
    rfl
  · rw [hform, String.data_append]
    have hd : " \x7d\n".data = " \x7d".data ++ ['\n'] := rfl
    rw [hd, ← List.append_assoc, List.getLast?_concat]
  · intro s _
    obtain ⟨pre, hpre, _⟩ := stmtText_ends s
    exact ⟨pre, hpre⟩

/-- Witness of C13: the setter of the field `Email` of `Person`, at indentation 1. -/
theorem VisitMethod_single_line_witness :
    newlines (methodText 1
      (setterOf { Name := "Email"
                  Typ := transformType NewGoToCppTransformer (.starExpr (.ident "string")) })) = 1 ∧
    methodText 1
      (setterOf { Name := "Email"
                  Typ := transformType NewGoToCppTransformer (.starExpr (.ident "string")) }) =
      "    void set_Email(const std::optional<std::string>& val) \x7b Email = val; \x7d\n" :=
  ⟨(VisitMethod_single_line { output := "", indent := 1 }
      (setterOf { Name := "Email"
                  Typ := transformType NewGoToCppTransformer (.starExpr (.ident "string")) })
      (by decide)).2.2.1, rfl⟩

/-! ### C17, C18: `ParseGoSource` -/

/-- The result of `transformType` does not depend on the receiver. -/
theorem transformType_receiver (t1 t2 : GoToCppTransformer) :
    ∀ goType : GoExpr, transformType t1 goType = transformType t2 goType
  | .ident _ => rfl
  | .starExpr x => by simp [transformType, transformType_receiver t1 t2 x]
  | .arrayType _ elt => by simp [transformType, transformType_receiver t1 t2 elt]
  | .mapType k v => by
    simp [transformType, transformType_receiver t1 t2 k, transformType_receiver t1 t2 v]
  | .structType _ => rfl
  | .selectorExpr _ _ => rfl
  | .other _ => rfl

/-- The result of `transformStruct` does not depend on the receiver. -/
theorem transformStruct_receiver (t1 t2 : GoToCppTransformer) (name : String)
    (goFields : List GoField) :
    transformStruct t1 name goFields = transformStruct t2 name goFields := by
  have h : (fun f : GoField => f.Names.map
        (fun n => ({ Name := n, Typ := transformType t1 f.Typ } : CppField))) =
      (fun f : GoField => f.Names.map
        (fun n => ({ Name := n, Typ := transformType t2 f.Typ } : CppField))) := by
    funext f
    rw [transformType_receiver t1 t2 f.Typ]
  simp only [transformStruct, transformFields_eq, h]

mutual
/-- The walk at and below a declaration appends the structs of `structSpecsOfDecl`. -/
theorem inspectDecl_eq (t0 : GoToCppTransformer) : ∀ (d : GoDecl) (t : GoToCppTransformer),
    inspectDecl t d =
      { unit :=
          { Includes := t.unit.Includes
            Structs := t.unit.Structs ++
              (structSpecsOfDecl d).map (fun p => transformStruct t0 p.1 p.2) } }
  | .genDecl specs, t => by simp [inspectDecl, structSpecsOfDecl, inspectSpecs_eq t0 specs t]
  | .funcDecl _ body, t => by
    simp [inspectDecl, structSpecsOfDecl, inspectStmts_eq t0 body t]
/-- The walk at and below a specification appends the structs of `structSpecsOfSpec`. -/
theorem inspectSpec_eq (t0 : GoToCppTransformer) : ∀ (spec : GoSpec) (t : GoToCppTransformer),
    inspectSpec t spec =
      { unit :=
          { Includes := t.unit.Includes
            Structs := t.unit.Structs ++
              (structSpecsOfSpec spec).map (fun p => transformStruct t0 p.1 p.2) } }
  | .typeSpec name ty, t => by
    cases ty <;> simp [inspectSpec, structSpecsOfSpec, transformStruct_receiver t t0]
  | .importSpec, t => by simp [inspectSpec, structSpecsOfSpec]
  | .valueSpec values, t => by
    simp [inspectSpec, structSpecsOfSpec, inspectValues_eq t0 values t]
/-- The walk over a specification list appends the structs of `structSpecsOfSpecs`. -/
theorem inspectSpecs_eq (t0 : GoToCppTransformer) : ∀ (l : List GoSpec) (t : GoToCppTransformer),
    inspectSpecs t l =
      { unit :=
          { Includes := t.unit.Includes
            Structs := t.unit.Structs ++
              (structSpecsOfSpecs l).map (fun p => transformStruct t0 p.1 p.2) } }
  | [], t => by simp [inspectSpecs, structSpecsOfSpecs]
  | s :: rest, t => by
    rw [inspectSpecs, inspectSpecs_eq t0 rest, inspectSpec_eq t0 s t]
    simp [structSpecsOfSpecs]
/-- The walk at and below a statement appends the structs of `structSpecsOfStmt`. -/
theorem inspectStmt_eq (t0 : GoToCppTransformer) : ∀ (s : GoStmt) (t : GoToCppTransformer),
    inspectStmt t s =
      { unit :=
          { Includes := t.unit.Includes
            Structs := t.unit.Structs ++
              (structSpecsOfStmt s).map (fun p => transformStruct t0 p.1 p.2) } }
  | .declStmt d, t => by simp [inspectStmt, structSpecsOfStmt, inspectDecl_eq t0 d t]
  | .blockStmt l, t => by simp [inspectStmt, structSpecsOfStmt, inspectStmts_eq t0 l t]
  | .otherStmt children, t => by
    simp [inspectStmt, structSpecsOfStmt, inspectNodes_eq t0 children t]
/-- The walk over a statement list appends the structs of `structSpecsOfStmts`. -/
theorem inspectStmts_eq (t0 : GoToCppTransformer) : ∀ (l : List GoStmt) (t : GoToCppTransformer),
    inspectStmts t l =
      { unit :=
          { Includes := t.unit.Includes
            Structs := t.unit.Structs ++
              (structSpecsOfStmts l).map (fun p => transformStruct t0 p.1 p.2) } }
  | [], t => by simp [inspectStmts, structSpecsOfStmts]
  | s :: rest, t => by
    rw [inspectStmts, inspectStmts_eq t0 rest, inspectStmt_eq t0 s t]
    simp [structSpecsOfStmts]
/-- The walk at and below an expression appends the structs of `structSpecsOfValue`. -/
theorem inspectValue_eq (t0 : GoToCppTransformer) : ∀ (v : GoValue) (t : GoToCppTransformer),
    inspectValue t v =
      { unit :=
          { Includes := t.unit.Includes
            Structs := t.unit.Structs ++
              (structSpecsOfValue v).map (fun p => transformStruct t0 p.1 p.2) } }
  | .funcLit body, t => by simp [inspectValue, structSpecsOfValue, inspectStmts_eq t0 body t]
  | .otherValue children, t => by
    simp [inspectValue, structSpecsOfValue, inspectValues_eq t0 children t]
/-- The walk over an expression list appends the structs of `structSpecsOfValues`. -/
theorem inspectValues_eq (t0 : GoToCppTransformer) :
    ∀ (l : List GoValue) (t : GoToCppTransformer),
    inspectValues t l =
      { unit :=
          { Includes := t.unit.Includes
            Structs := t.unit.Structs ++
              (structSpecsOfValues l).map (fun p => transformStruct t0 p.1 p.2) } }
  | [], t => by simp [inspectValues, structSpecsOfValues]
  | v :: rest, t => by
    rw [inspectValues, inspectValues_eq t0 rest, inspectValue_eq t0 v t]
    simp [structSpecsOfValues]
/-- The walk at and below a node appends the structs of `structSpecsOfNode`. -/
theorem inspectNode_eq (t0 : GoToCppTransformer) : ∀ (n : GoNode) (t : GoToCppTransformer),
    inspectNode t n =
      { unit :=
          { Includes := t.unit.Includes
            Structs := t.unit.Structs ++
              (structSpecsOfNode n).map (fun p => transformStruct t0 p.1 p.2) } }
  | .value x, t => by simp [inspectNode, structSpecsOfNode, inspectValue_eq t0 x t]
  | .stmt s, t => by simp [inspectNode, structSpecsOfNode, inspectStmt_eq t0 s t]
/-- The walk over a node list appends the structs of `structSpecsOfNodes`. -/
theorem inspectNodes_eq (t0 : GoToCppTransformer) : ∀ (l : List GoNode) (t : GoToCppTransformer),
    inspectNodes t l =
      { unit :=
          { Includes := t.unit.Includes
            Structs := t.unit.Structs ++
              (structSpecsOfNodes l).map (fun p => transformStruct t0 p.1 p.2) } }
  | [], t => by simp [inspectNodes, structSpecsOfNodes]
  | n :: rest, t => by
    rw [inspectNodes, inspectNodes_eq t0 rest, inspectNode_eq t0 n t]
    simp [structSpecsOfNodes]
end

/-- The walk over the declarations of a file. -/
theorem inspectDecls_eq (t0 : GoToCppTransformer) (decls : List GoDecl) :
    ∀ t : GoToCppTransformer, decls.foldl inspectDecl t =
      { unit :=
          { Includes := t.unit.Includes
            Structs := t.unit.Structs ++
              (decls.flatMap structSpecsOfDecl).map (fun p => transformStruct t0 p.1 p.2) } } := by
  induction decls with
  | nil => intro t; simp
  | cons d rest ih =>
    intro t
    rw [List.foldl_cons, ih, inspectDecl_eq t0 d t]
    simp

/-- What `ParseGoSource` appends for a file the parser accepts: one struct per
struct-shaped type specification the walk meets, at top level, inside a function
body or inside a function literal, in source order; the include list is kept
and no error is returned. -/
theorem ParseGoSource_appends (parseFile : String → Except String GoFile)
    (t : GoToCppTransformer) (src : String) (f : GoFile) (h : parseFile src = .ok f) :
    (ParseGoSource parseFile t src).2 = none ∧
    (ParseGoSource parseFile t src).1.unit.Includes = t.unit.Includes ∧
    (ParseGoSource parseFile t src).1.unit.Structs =
      t.unit.Structs ++
        (f.Decls.flatMap structSpecsOfDecl).map (fun p => transformStruct t p.1 p.2) := by
  refine ⟨by simp [ParseGoSource, h], by simp [ParseGoSource, h, inspectDecls_eq t], ?_⟩
  simp [ParseGoSource, h, inspectDecls_eq t]

/-- C17 at three source files with a struct declared below the top level. None of
them has a top-level struct declaration, so by the claim `ParseGoSource` appends
nothing; the code appends the struct `Local` declared in the body of the
function `f`, the struct `T` declared in the function literal of `var f`, and
for two functions that each declare a local `T` two structs of the same name. -/
theorem local_struct_appended :
    topLevelStructSpecs localFile = [] ∧
    (ParseGoSource parseLocal NewGoToCppTransformer localSource).2 = none ∧
    (ParseGoSource parseLocal NewGoToCppTransformer localSource).1.unit.Structs.map
      CppStruct.Name = ["Local"] ∧
    (ParseGoSource parseLocal NewGoToCppTransformer localSource).1.unit.Structs.length ≠
      (topLevelStructSpecs localFile).length ∧
    topLevelStructSpecs varFile = [] ∧
    (ParseGoSource parseLocal NewGoToCppTransformer varSource).2 = none ∧
    (ParseGoSource parseLocal NewGoToCppTransformer varSource).1.unit.Structs.map
      CppStruct.Name = ["T"] ∧
    topLevelStructSpecs twoLocalsFile = [] ∧
    (ParseGoSource parseLocal NewGoToCppTransformer twoLocalsSource).2 = none ∧
    (ParseGoSource parseLocal NewGoToCppTransformer twoLocalsSource).1.unit.Structs.map
      CppStruct.Name = ["T", "T"] := by
  have h1 : parseLocal localSource = .ok localFile := rfl
  have h2 : parseLocal varSource = .ok varFile := rfl
  have h3 : parseLocal twoLocalsSource = .ok twoLocalsFile := rfl
  refine ⟨rfl, ?_, ?_, ?_, rfl, ?_, ?_, rfl, ?_, ?_⟩
  · simp only [ParseGoSource, h1]
  · simp only [ParseGoSource, h1]; rfl
  · simp only [ParseGoSource, h1]
    decide
  · simp only [ParseGoSource, h2]
  · simp only [ParseGoSource, h2]; rfl
  · simp only [ParseGoSource, h3]
  · simp only [ParseGoSource, h3]; rfl

/-- C18. `ParseGoSource` returns an error exactly when the parser rejects the text,
the error is the diagnostic of the parser, and in that case the transformer,
with its include list and its struct list, is as before the call. -/
theorem ParseGoSource_error (parseFile : String → Except String GoFile)
    (t : GoToCppTransformer) (src : String) :
    (∀ err : String,
      (ParseGoSource parseFile t src).2 = some err ↔ parseFile src = .error err) ∧
    ((ParseGoSource parseFile t src).2 = none ↔ ∃ f, parseFile src = .ok f) ∧
    ((ParseGoSource parseFile t src).2 ≠ none →
      (ParseGoSource parseFile t src).1 = t ∧
      (ParseGoSource parseFile t src).1.unit.Includes = t.unit.Includes ∧
      (ParseGoSource parseFile t src).1.unit.Structs = t.unit.Structs) := by
  cases h : parseFile src with
  | error e => simp [ParseGoSource, h]
  | ok f => simp [ParseGoSource, h]

/-! ### C19: the type descriptors of the JSON exporter -/

/-- A value with the shape of a descriptor has a kind. -/
theorem kind_isSome_of_isDescriptor (v : JsonValue) (h : v.isDescriptor = true) :
    v.kind.isSome = true := by
  unfold JsonValue.isDescriptor at h
  cases hk : v.kind with
  | none => simp [hk] at h
  | some k => rfl

/-- The check `descriptorsOKList` on a list extended by one value. -/
theorem descriptorsOKList_concat (l : List JsonValue) (v : JsonValue) :
    JsonValue.descriptorsOKList (l ++ [v]) =
      (JsonValue.descriptorsOKList l && v.descriptorsOK) := by
  induction l with
  | nil => simp [JsonValue.descriptorsOKList]
  | cons a rest ih => simp [JsonValue.descriptorsOKList, ih, Bool.and_assoc]

mutual
/-- The descriptor of every type expression has the shape of a descriptor, and so
has every descriptor nested inside it. -/
theorem goTypeToPragJSON_ok : ∀ expr : GoExpr,
    (goTypeToPragJSON expr).isDescriptor = true ∧ (goTypeToPragJSON expr).descriptorsOK = true
  | .ident name => by
    constructor <;> simp [goTypeToPragJSON, JsonValue.isDescriptor, JsonValue.kind,
      JsonValue.get, List.lookup, JsonValue.descriptorsOK, JsonValue.descriptorsOKEntries]
  | .structType fields => by
    have hf := pragFieldsLoop_ok fields [] ⟨rfl, rfl⟩
    have h1 : (goTypeToPragJSON (.structType fields)).isDescriptor = true := by
      simpa [goTypeToPragJSON, JsonValue.isDescriptor, JsonValue.kind, JsonValue.get,
        List.lookup, fieldEntriesOK] using hf.1
    refine ⟨h1, ?_⟩
    rw [goTypeToPragJSON] at h1 ⊢
    simp [JsonValue.descriptorsOK, JsonValue.descriptorsOKEntries, h1, hf.2]
  | .arrayType len elt => by
    have ih := goTypeToPragJSON_ok elt
    have hk := kind_isSome_of_isDescriptor _ ih.1
    have h1 : (goTypeToPragJSON (.arrayType len elt)).isDescriptor = true := by
      simpa [goTypeToPragJSON, JsonValue.isDescriptor, JsonValue.kind, JsonValue.get,
        List.lookup] using hk
    refine ⟨h1, ?_⟩
    rw [goTypeToPragJSON] at h1 ⊢
    simp [JsonValue.descriptorsOK, JsonValue.descriptorsOKEntries, JsonValue.descriptorsOKList,
      h1, ih.2]
  | .mapType key value => by
    have ihk := goTypeToPragJSON_ok key
    have ihv := goTypeToPragJSON_ok value
    have hkk := kind_isSome_of_isDescriptor _ ihk.1
    have hkv := kind_isSome_of_isDescriptor _ ihv.1
    have h1 : (goTypeToPragJSON (.mapType key value)).isDescriptor = true := by
      simpa [goTypeToPragJSON, JsonValue.isDescriptor, JsonValue.kind, JsonValue.get,
        List.lookup] using And.intro hkk hkv
    refine ⟨h1, ?_⟩
    rw [goTypeToPragJSON] at h1 ⊢
    simp [JsonValue.descriptorsOK, JsonValue.descriptorsOKEntries, JsonValue.descriptorsOKList,
      h1, ihk.2, ihv.2]
  | .starExpr x => by
    have ih := goTypeToPragJSON_ok x
    have hk := kind_isSome_of_isDescriptor _ ih.1
    have h1 : (goTypeToPragJSON (.starExpr x)).isDescriptor = true := by
      simpa [goTypeToPragJSON, JsonValue.isDescriptor, JsonValue.kind, JsonValue.get,
        List.lookup] using hk
    refine ⟨h1, ?_⟩
    rw [goTypeToPragJSON] at h1 ⊢
    simp [JsonValue.descriptorsOK, JsonValue.descriptorsOKEntries, JsonValue.descriptorsOKList,
      h1, ih.2]
  | .selectorExpr x sel => by
    cases x <;> constructor <;>
      simp [goTypeToPragJSON, JsonValue.isDescriptor, JsonValue.kind,
        JsonValue.get, List.lookup, JsonValue.descriptorsOK, JsonValue.descriptorsOKEntries]
  | .other _ => by
    constructor <;> simp [goTypeToPragJSON, JsonValue.isDescriptor, JsonValue.kind,
      JsonValue.get, List.lookup, JsonValue.descriptorsOK, JsonValue.descriptorsOKEntries]
/-- The field loop keeps a field list whose entries carry descriptors. -/
theorem pragFieldsLoop_ok : ∀ (goFields : List GoField) (fields : List JsonValue),
    fieldEntriesOK fields = true ∧ JsonValue.descriptorsOKList fields = true →
    fieldEntriesOK (pragFieldsLoop fields goFields) = true ∧
      JsonValue.descriptorsOKList (pragFieldsLoop fields goFields) = true
  | [], fields, h => by simpa [pragFieldsLoop] using h
  | .mk names ty :: rest, fields, h => by
    have ih := goTypeToPragJSON_ok ty
    have hk := kind_isSome_of_isDescriptor _ ih.1
    simp only [pragFieldsLoop]
    split
    · apply pragFieldsLoop_ok rest
      constructor
      · simp only [fieldEntriesOK, List.all_append, Bool.and_eq_true]
        exact ⟨h.1, by simpa [JsonValue.get, List.lookup] using hk⟩
      · rw [descriptorsOKList_concat, h.2]
        simp [JsonValue.descriptorsOK, JsonValue.descriptorsOKEntries, List.lookup, ih.2]
    · exact pragFieldsLoop_ok rest fields h
end

/-- C19. The descriptor `goTypeToPragJSON` returns, and every descriptor nested
inside it, has kind `primitive`, `struct` or `generic`; a `generic` descriptor
is `Vec` with one argument (the element of a slice or array), `Map` with two
(key, then value) or `Option` with one (the pointee), the arguments being the
descriptors of the sub-expressions; a `struct` descriptor is marked anonymous
and carries a field list. -/
theorem goTypeToPragJSON_descriptor (expr : GoExpr) :
    (goTypeToPragJSON expr).isDescriptor = true ∧
    (goTypeToPragJSON expr).descriptorsOK = true ∧
    ((goTypeToPragJSON expr).kind = some "primitive" ∨
      (goTypeToPragJSON expr).kind = some "struct" ∨
      (goTypeToPragJSON expr).kind = some "generic") ∧
    (∀ (len : Option GoExpr) (elt : GoExpr),
      goTypeToPragJSON (.arrayType len elt) =
        .object [("kind", .str "generic"), ("name", .str "Vec"),
          ("args", .array [goTypeToPragJSON elt])]) ∧
    (∀ key value : GoExpr,
      goTypeToPragJSON (.mapType key value) =
        .object [("kind", .str "generic"), ("name", .str "Map"),
          ("args", .array [goTypeToPragJSON key, goTypeToPragJSON value])]) ∧
    (∀ x : GoExpr,
      goTypeToPragJSON (.starExpr x) =
        .object [("kind", .str "generic"), ("name", .str "Option"),
          ("args", .array [goTypeToPragJSON x])]) ∧
    (∀ fields : List GoField,
      goTypeToPragJSON (.structType fields) =
        .object [("kind", .str "struct"), ("anonymous", .bool true),
          ("fields", .array (pragFieldsLoop [] fields))]) := by
  refine ⟨(goTypeToPragJSON_ok expr).1, (goTypeToPragJSON_ok expr).2, ?_,
    fun len elt => by rw [goTypeToPragJSON], fun key value => by rw [goTypeToPragJSON],
    fun x => by rw [goTypeToPragJSON], fun fields => by rw [goTypeToPragJSON]⟩
  cases expr with
  | selectorExpr x sel =>
    cases x <;> simp [goTypeToPragJSON, JsonValue.kind, JsonValue.get, List.lookup]
  | _ => simp [goTypeToPragJSON, JsonValue.kind, JsonValue.get, List.lookup]

/-! ### C21: what one field declaration contributes -/

/-- C21. In the struct `transformStruct` returns, a field declaration with the names
`n₁ … nₖ` and one type contributes, between the fields of the declarations before
it and those of the declarations after it, the `k` fields `n₁ … nₖ` of the
mapped type, in name order, and to `Methods` the getter and the setter of each
of them, in the same order; a declaration without names (an embedded field)
contributes no field and no method: the struct is the one of the field list
without it. -/
theorem declaration_contribution (t : GoToCppTransformer) (name : String)
    (before after : List GoField) (decl : GoField) :
    (transformStruct t name (before ++ decl :: after)).Fields =
      (transformStruct t name before).Fields ++
        decl.Names.map (fun n => ({ Name := n, Typ := transformType t decl.Typ } : CppField)) ++
        (transformStruct t name after).Fields ∧
    (transformStruct t name (before ++ decl :: after)).Methods =
      (transformStruct t name before).Methods ++
        (decl.Names.map (fun n => ({ Name := n, Typ := transformType t decl.Typ } : CppField))).flatMap
          (fun f => [getterOf f, setterOf f]) ++
        (transformStruct t name after).Methods ∧
    (decl.Names.map (fun n => ({ Name := n, Typ := transformType t decl.Typ } : CppField))).length =
      decl.Names.length ∧
    ((decl.Names.map (fun n => ({ Name := n, Typ := transformType t decl.Typ } : CppField))).flatMap
      (fun f => [getterOf f, setterOf f])).length = 2 * decl.Names.length ∧
    (decl.Names = [] →
      transformStruct t name (before ++ decl :: after) = transformStruct t name (before ++ after)) := by
  have hF : ∀ l : List GoField, (transformStruct t name l).Fields =
      l.flatMap (fun f => f.Names.map
        (fun n => ({ Name := n, Typ := transformType t f.Typ } : CppField))) := by
    intro l; simp [transformStruct, transformFields_eq]
  have hM : ∀ l : List GoField, (transformStruct t name l).Methods =
      (transformStruct t name l).Fields.flatMap (fun f => [getterOf f, setterOf f]) := by
    intro l; simp [transformStruct, generateAccessors_eq]
  have h1 : (transformStruct t name (before ++ decl :: after)).Fields =
      (transformStruct t name before).Fields ++
        decl.Names.map (fun n => ({ Name := n, Typ := transformType t decl.Typ } : CppField)) ++
        (transformStruct t name after).Fields := by
    simp [hF, List.flatMap_append, List.flatMap_cons]
  refine ⟨h1, ?_, by simp, ?_, ?_⟩
  · rw [hM, h1, hM before, hM after]
    simp [List.flatMap_append]
  · rw [pairs_length, List.length_map]
  · intro hnil
    have hFe : (transformStruct t name (before ++ decl :: after)).Fields =
        (transformStruct t name (before ++ after)).Fields := by
      simp [hF, List.flatMap_append, List.flatMap_cons, hnil]
    have hMe : (transformStruct t name (before ++ decl :: after)).Methods =
        (transformStruct t name (before ++ after)).Methods := by
      rw [hM, hM (before ++ after), hFe]
    have hs : ∀ l : List GoField, transformStruct t name l =
        { Name := name, Fields := (transformStruct t name l).Fields,
          Methods := (transformStruct t name l).Methods,
          Constructor := some { Name := name, ReturnType := none, Params := [],
                                IsConst := false, Body := [] } } := fun _ => rfl
    rw [hs (before ++ decl :: after), hs (before ++ after), hFe, hMe]

end Prag
